import Mathlib

/-!
Verification of the anyrouter proxy (`src/main.py`) against its
natural-language specification.

The Python program is shallowly embedded: JSON values become the inductive
type `JVal`; the dynamically-typed, exception-throwing functions of the
source become Lean functions into `Except String _` (an `.error` models a
raised Python exception); the mutable globals touched by the config reload
become an explicit `ProxyState` record.  All definitions are executable.
-/

set_option maxRecDepth 4096

namespace AnyrouterProxy

/-- A JSON value, as produced by `json.loads`.  Numbers are modelled as
integers (no claim involves fractional values).  Objects are ordered
key/value lists, matching Python's insertion-ordered `dict`. -/
inductive JVal where
  | null
  | bool (b : Bool)
  | num (n : Int)
  | str (s : String)
  | arr (xs : List JVal)
  | obj (kvs : List (String × JVal))
deriving Inhabited

namespace JVal

/-- Python truthiness of a value. -/
def truthy : JVal → Bool
  | .null => false
  | .bool b => b
  | .num n => n != 0
  | .str s => s ≠ ""
  | .arr xs => !xs.isEmpty
  | .obj kvs => !kvs.isEmpty

end JVal

mutual

/-- Python `==`, restricted to the shapes `JVal` can hold: numeric
cross-equality between `bool` and `num` (`True == 1`), structural equality
elsewhere.  (Object comparison is keyed on the stored association list; the
program only ever compares role strings, so this corner is never exercised.) -/
def pyEq : JVal → JVal → Bool
  | .null, .null => true
  | .bool a, .bool b => a == b
  | .bool a, .num n => (if a then (1 : Int) else 0) == n
  | .num n, .bool a => n == (if a then (1 : Int) else 0)
  | .num a, .num b => a == b
  | .str a, .str b => a == b
  | .arr a, .arr b => pyEqList a b
  | .obj a, .obj b => pyEqKvs a b
  | _, _ => false

/-- Pointwise Python `==` on lists. -/
def pyEqList : List JVal → List JVal → Bool
  | [], [] => true
  | x :: xs, y :: ys => pyEq x y && pyEqList xs ys
  | _, _ => false

/-- Pointwise Python `==` on object entries. -/
def pyEqKvs : List (String × JVal) → List (String × JVal) → Bool
  | [], [] => true
  | (k, v) :: xs, (k', v') :: ys => k == k' && pyEq v v' && pyEqKvs xs ys
  | _, _ => false

end

/-! ## String helpers: Python `str.strip` and blankness -/

/-- Whitespace predicate used by `strip`. -/
def isWS (c : Char) : Bool := c.isWhitespace

/-- `str.strip()` on a character list: drop whitespace from both ends. -/
def stripL (l : List Char) : List Char :=
  ((l.dropWhile isWS).reverse.dropWhile isWS).reverse

/-- Python `s.strip()`. -/
def pyStrip (s : String) : String := ⟨stripL s.data⟩

/-- `not s.strip()` in Python: the string is empty or all whitespace. -/
def pyBlank (s : String) : Bool := (stripL s.data).isEmpty

/-! ## Dictionary and value operations -/

/-- `d[k] = v` on the association list of a Python dict: replace the first
occurrence in place, else append (insertion order preserved). -/
def setKvs : List (String × JVal) → String → JVal → List (String × JVal)
  | [], k, v => [(k, v)]
  | (k', v') :: rest, k, v =>
      if k' == k then (k, v) :: rest else (k', v') :: setKvs rest k v

/-- Key membership (`k in d`). -/
def hasKeyKvs (kvs : List (String × JVal)) (k : String) : Bool :=
  (kvs.lookup k).isSome

/-- Look a key up in an object; `none` when the value is not an object or
the key is missing. -/
def jlookup : JVal → String → Option JVal
  | .obj kvs, k => kvs.lookup k
  | _, _ => none

/-- `d[k] = v` on a `JVal`; identity on non-objects (only applied to values
already known to be dicts). -/
def objSet : JVal → String → JVal → JVal
  | .obj kvs, k, v => .obj (setKvs kvs k v)
  | j, _, _ => j

/-- `d.setdefault(k, v)`: add `(k, v)` at the end unless the key exists. -/
def objSetdefault : JVal → String → JVal → JVal
  | .obj kvs, k, v => if hasKeyKvs kvs k then .obj kvs else .obj (kvs ++ [(k, v)])
  | j, _, _ => j

/-- Python `x.get(k, d)`: raises `AttributeError` when `x` is not a dict. -/
def pyGet (v : JVal) (k : String) (d : JVal) : Except String JVal :=
  match v with
  | .obj kvs => .ok ((kvs.lookup k).getD d)
  | _ => .error "AttributeError: get"

/-- Python `x[k]` for a string key: `KeyError` when the key is missing,
`TypeError` when `x` is not subscriptable by strings. -/
def pyItem (v : JVal) (k : String) : Except String JVal :=
  match v with
  | .obj kvs =>
      match kvs.lookup k with
      | some x => .ok x
      | none => .error "KeyError"
  | _ => .error "TypeError: not subscriptable"

/-- Python `x[0]`: first element of a list, first character of a string
(as a one-character string), errors elsewhere. -/
def pyIndex0 : JVal → Except String JVal
  | .arr (x :: _) => .ok x
  | .arr [] => .error "IndexError"
  | .str s =>
      match s.data with
      | [] => .error "IndexError"
      | c :: _ => .ok (.str ⟨[c]⟩)
  | .obj _ => .error "KeyError"
  | _ => .error "TypeError: not subscriptable"

mutual

/-- Python `repr`, as used by `str` on containers.  Only the scalar cases
are ever exercised by the proofs. -/
def pyRepr : JVal → String
  | .null => "None"
  | .bool true => "True"
  | .bool false => "False"
  | .num n => toString n
  | .str s => "'" ++ s ++ "'"
  | .arr xs => "[" ++ ", ".intercalate (pyReprList xs) ++ "]"
  | .obj kvs => "\x7b" ++ ", ".intercalate (pyReprKvs kvs) ++ "\x7d"

/-- `repr` of list elements. -/
def pyReprList : List JVal → List String
  | [] => []
  | x :: xs => pyRepr x :: pyReprList xs

/-- `repr` of dict entries. -/
def pyReprKvs : List (String × JVal) → List String
  | [] => []
  | (k, v) :: rest => ("'" ++ k ++ "': " ++ pyRepr v) :: pyReprKvs rest

end

/-- Python `str(x)` as performed by an f-string interpolation. -/
def pyStr : JVal → String
  | .str s => s
  | v => pyRepr v

/-! ## Credential rotator (`key_cycle`, `get_next_key`; main.py lines 33, 54-58)

`itertools.cycle(API_KEYS)` is modelled as the pair of the pool and a
cursor; `next` returns the element at the cursor modulo the pool length and
advances the cursor.  `key_cycle` is `none` exactly when `API_KEYS` is
falsy, matching `itertools.cycle(API_KEYS) if API_KEYS else None`. -/

/-- The state of `key_cycle`: `none` models Python `None`, otherwise the
pool handed to `itertools.cycle` together with the cursor position. -/
abbrev KeyCycle := Option (List JVal × Nat)

/-- `key_cycle = itertools.cycle(API_KEYS) if API_KEYS else None` for a
list-valued `API_KEYS` (truthy iff non-empty). -/
def keyCycleInit (keys : List JVal) : KeyCycle :=
  if keys.isEmpty then none else some (keys, 0)

/-- `get_next_key`: round-robin draw; when `key_cycle` is `None` the empty
string is returned and no state changes. -/
def get_next_key : KeyCycle → JVal × KeyCycle
  | none => (.str "", none)
  | some (pool, i) => (pool.getD (i % pool.length) .null, some (pool, i + 1))

/-- The `key_cycle` state after `k` sequential calls to `get_next_key`,
starting from a freshly built cycle over `keys`. -/
def cycleStateAfter (keys : List JVal) : Nat → KeyCycle
  | 0 => keyCycleInit keys
  | k + 1 => (get_next_key (cycleStateAfter keys k)).2

/-- The credential returned by the `(k+1)`-th sequential call to
`get_next_key` (zero-indexed). -/
def callAt (keys : List JVal) (k : Nat) : JVal :=
  (get_next_key (cycleStateAfter keys k)).1

/-! ## System-prompt extractor (`get_user_system_text`, main.py lines 61-71) -/

/-- The list comprehension inside `get_user_system_text`: collect
`item["text"].strip()` for every dict item whose `text` is non-blank;
`.strip()` on a non-string `text` raises `AttributeError`. -/
def collectParts : List JVal → Except String (List String)
  | [] => .ok []
  | item :: rest =>
      match item with
      | .obj kvs =>
          match (kvs.lookup "text").getD (.str "") with
          | .str t =>
              match collectParts rest with
              | .error e => .error e
              | .ok parts =>
                  if pyBlank t then .ok parts else .ok (pyStrip t :: parts)
          | _ => .error "AttributeError: strip"
      | _ => collectParts rest

/-- `get_user_system_text(original_system)`. -/
def get_user_system_text (original_system : JVal) : Except String String :=
  match original_system with
  | .str s => if pyBlank s then .ok "" else .ok (pyStrip s)
  | .arr items =>
      match collectParts items with
      | .error e => .error e
      | .ok parts => if parts.isEmpty then .ok "" else .ok ("\n\n".intercalate parts)
  | _ => .ok ""

/-! ## Request transformation (`transform_body`, main.py lines 74-124) -/

/-- The `cache_control` annotation attached throughout. -/
def ecc : JVal := .obj [("type", .str "ephemeral")]

/-- A fresh text block as built by the merge and lift steps:
`{"type": "text", "text": t, "cache_control": {"type": "ephemeral"}}`. -/
def textBlock (t : String) : JVal :=
  .obj [("type", .str "text"), ("text", .str t), ("cache_control", ecc)]

/-- The constant `FIXED_SYSTEM` preamble (main.py lines 40-51). -/
def FIXED_SYSTEM : JVal :=
  .arr [.obj [("type", .str "text"),
              ("text", .str "You are Claude Code, Anthropic's official CLI for Claude."),
              ("cache_control", ecc)],
        .obj [("type", .str "text"),
              ("text", .str "."),
              ("cache_control", ecc)]]

/-- Python `for x in v`: lists iterate their elements, strings their
characters, dicts their keys; other values raise `TypeError`. -/
def toIterList : JVal → Except String (List JVal)
  | .arr xs => .ok xs
  | .str s => .ok (s.data.map fun c => .str ⟨[c]⟩)
  | .obj kvs => .ok (kvs.map fun kv => .str kv.1)
  | _ => .error "TypeError: not iterable"

/-- The wrapper the injection step builds around the caller system text
(main.py line 84). -/
def sysWrapper (s : String) : String :=
  "[System Instructions]\n" ++ s ++ "\n[/System Instructions]\n\n"

/-- The injection loop (main.py lines 81-89): find the first turn whose
role is `"user"`, prepend `prefixStr` to its string content, or to its
first block's text when the content is a non-empty list, and `break`
(for any other content shape the `break` still fires and nothing is
injected). -/
def injectLoop (prefixStr : String) : List JVal → Except String (List JVal)
  | [] => .ok []
  | msg :: rest =>
      match pyGet msg "role" .null with
      | .error e => .error e
      | .ok role =>
          if pyEq role (.str "user") then
            match pyGet msg "content" (.str "") with
            | .error e => .error e
            | .ok content =>
                match content with
                | .str s => .ok (objSet msg "content" (.str (prefixStr ++ s)) :: rest)
                | .arr [] => .ok (msg :: rest)
                | .arr (b :: bs) =>
                    match pyGet b "text" (.str "") with
                    | .error e => .error e
                    | .ok t =>
                        match t with
                        | .str ts =>
                            .ok (objSet msg "content"
                                  (.arr (objSet b "text" (.str (prefixStr ++ ts)) :: bs)) :: rest)
                        | _ => .error "TypeError: can only concatenate str"
                | _ => .ok (msg :: rest)
          else
            match injectLoop prefixStr rest with
            | .error e => .error e
            | .ok rest' => .ok (msg :: rest')

/-- `any(isinstance(b, dict) and b.get("text", "").strip() for b in c)` -
short-circuiting, raising `AttributeError` when a dict block's `text` is
not a string. -/
def anyNonBlankBlock : List JVal → Except String Bool
  | [] => .ok false
  | b :: rest =>
      match b with
      | .obj kvs =>
          match (kvs.lookup "text").getD (.str "") with
          | .str t => if pyBlank t then anyNonBlankBlock rest else .ok true
          | _ => .error "AttributeError: strip"
      | _ => anyNonBlankBlock rest

/-- The two drop tests for an assistant turn's content (main.py lines
95-100): blank string content, or list content with no non-blank dict
block.  Returns `true` when the turn is to be dropped. -/
def assistantDroppable (c : JVal) : Except String Bool :=
  match c with
  | .str s => .ok (pyBlank s)
  | .arr bs =>
      match anyNonBlankBlock bs with
      | .error e => .error e
      | .ok b => .ok (!b)
  | _ => .ok false

/-- `prev["content"] if isinstance(prev["content"], str) else
prev["content"][0].get("text", "")` - the value merged as a turn's text. -/
def mergeTextVal (c : JVal) : Except String JVal :=
  match c with
  | .str s => .ok (.str s)
  | c =>
      match pyIndex0 c with
      | .error e => .error e
      | .ok b => pyGet b "text" (.str "")

/-- The drop test applied to each turn (main.py lines 94-100): only
assistant turns are ever dropped. -/
def dropCheck (msg : JVal) (role : JVal) : Except String Bool :=
  if pyEq role (.str "assistant") then
    match pyGet msg "content" (.str "") with
    | .error e => .error e
    | .ok c => assistantDroppable c
  else .ok false

/-- The merge assignment (main.py lines 103-106): replace the previous
retained turn's content with a single annotated block holding
`f"{pt}\n{ct}"`. -/
def mergeMsgs (prev msg : JVal) : Except String JVal :=
  match pyItem prev "content" with
  | .error e => .error e
  | .ok pc =>
      match mergeTextVal pc with
      | .error e => .error e
      | .ok pt =>
          match pyItem msg "content" with
          | .error e => .error e
          | .ok mc =>
              match mergeTextVal mc with
              | .error e => .error e
              | .ok ct =>
                  .ok (objSet prev "content"
                        (.arr [textBlock (pyStr pt ++ "\n" ++ pyStr ct)]))

/-- One iteration of the clean-and-merge loop body (main.py lines 93-108)
on the current `cleaned` accumulator (kept in reverse; head = most
recently retained turn): drop a blank assistant turn, merge into the
previous retained turn on equal roles, or append. -/
def cleanStep (acc : List JVal) (msg : JVal) : Except String (List JVal) :=
  match pyGet msg "role" .null with
  | .error e => .error e
  | .ok role =>
      match dropCheck msg role with
      | .error e => .error e
      | .ok true => .ok acc
      | .ok false =>
          match acc with
          | [] => .ok [msg]
          | prev :: accTl =>
              match pyItem prev "role" with
              | .error e => .error e
              | .ok pr =>
                  match pyItem msg "role" with
                  | .error e => .error e
                  | .ok mr =>
                      if pyEq pr mr then
                        match mergeMsgs prev msg with
                        | .error e => .error e
                        | .ok prev' => .ok (prev' :: accTl)
                      else .ok (msg :: prev :: accTl)

/-- The clean-and-merge loop (main.py lines 92-109): fold `cleanStep`
over the turns and return the retained turns in order. -/
def cleanLoop : List JVal → List JVal → Except String (List JVal)
  | acc, [] => .ok acc.reverse
  | acc, msg :: rest =>
      match cleanStep acc msg with
      | .error e => .error e
      | .ok acc' => cleanLoop acc' rest

/-- One step of the annotation pass (main.py lines 117-119): a dict block
without a `cache_control` key gets one appended; anything else is left
untouched. -/
def annotateBlock (b : JVal) : JVal :=
  match b with
  | .obj kvs =>
      if hasKeyKvs kvs "cache_control" then .obj kvs
      else .obj (kvs ++ [("cache_control", ecc)])
  | b => b

/-- The annotation pass on one turn (main.py lines 112-119): plain string
content is lifted into a single annotated text block; list content has each
dict block annotated; other content shapes are left as they are. -/
def annotateMsg (msg : JVal) : Except String JVal :=
  match pyGet msg "content" (.str "") with
  | .error e => .error e
  | .ok c =>
      match c with
      | .str s => .ok (objSet msg "content" (.arr [textBlock s]))
      | .arr bs => .ok (objSet msg "content" (.arr (bs.map annotateBlock)))
      | _ => .ok msg

/-- The annotation pass over the whole message list. -/
def annotateList : List JVal → Except String (List JVal)
  | [] => .ok []
  | m :: rest =>
      match annotateMsg m with
      | .error e => .error e
      | .ok m' =>
          match annotateList rest with
          | .error e => .error e
          | .ok rest' => .ok (m' :: rest')

/-- The injection phase of `transform_body` (main.py lines 80-89): when
the extracted system text is non-empty, run the injection loop over the
message list and write the (possibly modified) list back.  When the
`messages` value was not a list nothing is written back (Python mutates
the iterated object in place, which for a list is the stored value and
for anything else either raises inside the loop or changes nothing). -/
def injectPhase (user_system : String) (body1 : JVal) : Except String JVal :=
  if user_system ≠ "" then
    match pyGet body1 "messages" (.arr []) with
    | .error e => .error e
    | .ok msgsV =>
        match toIterList msgsV with
        | .error e => .error e
        | .ok msgs =>
            match injectLoop (sysWrapper user_system) msgs with
            | .error e => .error e
            | .ok msgs' =>
                match msgsV with
                | .arr _ => .ok (objSet body1 "messages" (.arr msgs'))
                | _ => .ok body1
  else .ok body1

/-- The clean/merge, annotation and default-filling phases of
`transform_body` (main.py lines 91-124). -/
def normalizePhase (body2 : JVal) : Except String JVal :=
  match pyGet body2 "messages" (.arr []) with
  | .error e => .error e
  | .ok msgsV =>
      match toIterList msgsV with
      | .error e => .error e
      | .ok msgs =>
          match cleanLoop [] msgs with
          | .error e => .error e
          | .ok cleaned =>
              let body3 := objSet body2 "messages" (.arr cleaned)
              match annotateList cleaned with
              | .error e => .error e
              | .ok annotated =>
                  let body4 := objSet body3 "messages" (.arr annotated)
                  let body5 := objSetdefault body4 "max_tokens" (.num 32000)
                  let body6 := objSetdefault body5 "temperature" (.num 1)
                  .ok (objSetdefault body6 "stream" (.bool true))

/-- `transform_body(body)` (main.py lines 74-124), in the `Except` monad:
`.error` models an uncaught Python exception. -/
def transform_body (body : JVal) : Except String JVal :=
  match pyGet body "system" .null with
  | .error e => .error e
  | .ok sysv =>
      match get_user_system_text sysv with
      | .error e => .error e
      | .ok user_system =>
          match injectPhase user_system (objSet body "system" FIXED_SYSTEM) with
          | .error e => .error e
          | .ok body2 => normalizePhase body2

/-! ## Stream detection (`is_stream`, main.py line 177) and `json.dumps` -/

/-- Contiguous-subsequence test on character lists. -/
def listInfixOf (needle : List Char) : List Char → Bool
  | [] => needle.isEmpty
  | c :: t => needle.isPrefixOf (c :: t) || listInfixOf needle t

/-- Substring test on the serialized body (byte level, here character
level over the ASCII payload). -/
def strContains (hay needle : String) : Bool :=
  listInfixOf needle.data hay.data

/-- `is_stream = b'"stream": true' in body_bytes or b'"stream":true' in
body_bytes` (main.py line 177). -/
def is_stream (bodyBytes : String) : Bool :=
  strContains bodyBytes "\"stream\": true" || strContains bodyBytes "\"stream\":true"

/-- JSON string escaping as performed by `json.dumps` (ASCII payloads). -/
def jsonEscapeChar (c : Char) : String :=
  if c = '"' then "\\\""
  else if c = '\\' then "\\\\"
  else if c = '\n' then "\\n"
  else if c = '\t' then "\\t"
  else if c = '\r' then "\\r"
  else ⟨[c]⟩

/-- A JSON string literal as serialized by `json.dumps`. -/
def jsonDumpsStr (s : String) : String :=
  "\"" ++ String.join (s.data.map jsonEscapeChar) ++ "\""

mutual

/-- `json.dumps` with its default separators `", "` and `": "`. -/
def jsonDumps : JVal → String
  | .null => "null"
  | .bool true => "true"
  | .bool false => "false"
  | .num n => toString n
  | .str s => jsonDumpsStr s
  | .arr xs => "[" ++ ", ".intercalate (jsonDumpsList xs) ++ "]"
  | .obj kvs => "\x7b" ++ ", ".intercalate (jsonDumpsKvs kvs) ++ "\x7d"

/-- Serialization of array elements. -/
def jsonDumpsList : List JVal → List String
  | [] => []
  | x :: xs => jsonDumps x :: jsonDumpsList xs

/-- Serialization of object entries. -/
def jsonDumpsKvs : List (String × JVal) → List String
  | [] => []
  | (k, v) :: rest => (jsonDumpsStr k ++ ": " ++ jsonDumps v) :: jsonDumpsKvs rest

end

/-! ## Streaming relay (main.py lines 179-192)

The async generator `stream()` is modelled as a function from the upstream
response (status code and the sequence of chunks `aiter_bytes` yields) to
the chunk sequence delivered to the caller.  The surrounding
`StreamingResponse(stream(), media_type="text/event-stream")` carries the
default status code 200, so the pair returned below is
(status sent to the caller, chunks sent to the caller). -/

/-- The streaming branch: on upstream status 200 every chunk is forwarded
as it arrives; on any other status the whole body is drained into `err`
and yielded as a single chunk.  The envelope status is always 200. -/
def streamingResponseOf (status : Nat) (chunks : List String) : Nat × List String :=
  (200, if status == 200 then chunks else [String.join chunks])

/-! ## Config reload (`reload_config`, main.py lines 128-143)

The mutable globals are gathered into `ProxyState`.  `load_config()` is an
effect outside the embedded fragment (file read + `json.loads`); its
outcome is passed in as an `Except` value.  The `try`/`except` body assigns
the globals one at a time, so an exception raised midway leaves the
assignments already made in place; the function returns the state as it
stands when the handler fires, together with the JSON reply
(`.ok count` for `{"status": "ok", "keys_count": count}`, `.error` for the
500 `{"status": "error", ...}` reply). -/

/-- The module-level globals of main.py that `reload_config` reassigns. -/
structure ProxyState where
  config : JVal
  DEBUG : JVal
  ANYROUTER_URL : JVal
  FIXED_UA : JVal
  API_KEYS : JVal
  key_cycle : KeyCycle

/-- Values `itertools.cycle` accepts: lists yield their elements, strings
their characters, dicts their keys; everything else raises `TypeError`. -/
def toCycleIterable : JVal → Option (List JVal)
  | .arr xs => some xs
  | .str s => some (s.data.map fun c => .str ⟨[c]⟩)
  | .obj kvs => some (kvs.map fun kv => .str kv.1)
  | _ => none

/-- Python `len(x)` for sized values. -/
def pyLen : JVal → Option Nat
  | .str s => some s.length
  | .arr xs => some xs.length
  | .obj kvs => some kvs.length
  | _ => none

/-- `reload_config()`: `load` is the outcome of `load_config()`. -/
def reload_config (load : Except String JVal) (s : ProxyState) :
    ProxyState × Except String Nat :=
  match load with
  | .error e => (s, .error e)
  | .ok cfg =>
      let s1 : ProxyState := { s with config := cfg }
      match cfg with
      | .obj kvs =>
          let s2 : ProxyState := { s1 with DEBUG := (kvs.lookup "debug").getD (.bool false) }
          let s3 : ProxyState := { s2 with ANYROUTER_URL := (kvs.lookup "anyrouter_url").getD (.str "") }
          let s4 : ProxyState := { s3 with FIXED_UA := (kvs.lookup "user_agent").getD (.str "") }
          let ak := (kvs.lookup "api_keys").getD (.arr [])
          let s5 : ProxyState := { s4 with API_KEYS := ak }
          if ak.truthy then
            match toCycleIterable ak with
            | some pool =>
                let s6 : ProxyState := { s5 with key_cycle := some (pool, 0) }
                match pyLen ak with
                | some n => (s6, .ok n)
                | none => (s6, .error "TypeError: len")
            | none => (s5, .error "TypeError: not iterable")
          else
            let s6 : ProxyState := { s5 with key_cycle := none }
            match pyLen ak with
            | some n => (s6, .ok n)
            | none => (s6, .error "TypeError: len")
      | _ => (s1, .error "AttributeError: get")

/-! ## Derived observations and well-formedness predicates -/

/-- The message list of a payload. -/
def msgsOf (out : JVal) : List JVal :=
  match jlookup out "messages" with
  | some (.arr ms) => ms
  | _ => []

/-- `m.get("role")`, as a pure read (used on dict turns). -/
def roleD (m : JVal) : JVal := (jlookup m "role").getD .null

/-- `m.get("content", "")`, as a pure read (used on dict turns). -/
def contentD (m : JVal) : JVal := (jlookup m "content").getD (.str "")

/-- Whether a value is a dict. -/
def isObjB : JVal → Bool
  | .obj _ => true
  | _ => false

/-- Whether a value is neither a string nor a list. -/
def notStrArr : JVal → Bool
  | .str _ => false
  | .arr _ => false
  | _ => true

/-- Both adjacent turns carry a role and the roles differ (the invariant
the merge step enforces between consecutive retained turns). -/
def roleNeB (a b : JVal) : Bool :=
  match jlookup a "role", jlookup b "role" with
  | some x, some y => !pyEq x y
  | _, _ => false

/-- A block (in the loose inbound sense) whose text is effectively blank:
non-dicts and dicts whose `text` is missing, non-string, or whitespace. -/
def blockTextBlank (b : JVal) : Bool :=
  match b with
  | .obj kvs =>
      match (kvs.lookup "text").getD (.str "") with
      | .str t => pyBlank t
      | _ => true
  | _ => true

/-- Turn content with entirely blank text. -/
def contentAllBlank (c : JVal) : Bool :=
  match c with
  | .str s => pyBlank s
  | .arr bs => bs.all blockTextBlank
  | _ => true

/-- An assistant turn whose text content is entirely blank. -/
def blankAssistant (m : JVal) : Bool :=
  pyEq (roleD m) (.str "assistant") && contentAllBlank (contentD m)

/-- A dict block carrying a `cache_control` key. -/
def blockHasCC (b : JVal) : Bool :=
  match b with
  | .obj kvs => hasKeyKvs kvs "cache_control"
  | _ => false

/-- Every dict block of the turn carries `cache_control`, and string
content has been lifted away (no plain-string content remains). -/
def msgBlocksCC (m : JVal) : Bool :=
  match jlookup m "content" with
  | some (.arr bs) => bs.all fun b => !isObjB b || blockHasCC b
  | some (.str _) => false
  | _ => true

/-- Some turn has a content block without a `cache_control` key. -/
def someBlockNoCC (msgs : List JVal) : Bool :=
  msgs.any fun m =>
    match jlookup m "content" with
    | some (.arr bs) => bs.any fun b => !blockHasCC b
    | _ => false

/-- A well-formed block: a dict whose `text`, if present, is a string. -/
def wfBlock : JVal → Bool
  | .obj kvs =>
      match kvs.lookup "text" with
      | none => true
      | some (.str _) => true
      | some _ => false
  | _ => false

/-- Well-formed turn content: a string, or a non-empty list of
well-formed blocks. -/
def wfContent : JVal → Bool
  | .str _ => true
  | .arr [] => false
  | .arr bs => bs.all wfBlock
  | _ => false

/-- A well-formed turn: a dict with a `role` key and well-formed content. -/
def wfMsg : JVal → Bool
  | .obj kvs =>
      (kvs.lookup "role").isSome &&
      (match kvs.lookup "content" with
       | some c => wfContent c
       | none => false)
  | _ => false

/-- A system list item `get_user_system_text` digests without raising: a
non-dict (skipped), or a dict whose `text` is a string or absent. -/
def wfSysItem : JVal → Bool
  | .obj kvs =>
      match kvs.lookup "text" with
      | none => true
      | some (.str _) => true
      | some _ => false
  | _ => true

/-- A `system` value `get_user_system_text` digests without raising. -/
def wfSystem : JVal → Bool
  | .arr items => items.all wfSysItem
  | _ => true

/-- Modelled from the spec: the list-input digest of the system-prompt
extractor — the trimmed `text` of every item with non-blank string text,
in order, items without usable text skipped. -/
def collectP (items : List JVal) : List String :=
  items.filterMap fun it =>
    match it with
    | .obj kvs =>
        match (kvs.lookup "text").getD (.str "") with
        | .str t => if pyBlank t then none else some (pyStrip t)
        | _ => none
    | _ => none

/-- A body `transform_body` processes without raising: a dict whose
`system` is digestible and whose `messages`, when present, is a list of
well-formed turns. -/
def wfBody : JVal → Bool
  | .obj kvs =>
      wfSystem ((kvs.lookup "system").getD .null) &&
      (match kvs.lookup "messages" with
       | none => true
       | some (.arr ms) => ms.all wfMsg
       | some _ => false)
  | _ => false

/-- A predicate holding of every inbound turn of a body. -/
def msgsAllP (P : JVal → Bool) (body : JVal) : Bool :=
  match jlookup body "messages" with
  | some (.arr ms) => ms.all P
  | _ => true

/-- An assistant turn whose content is a plain string or a single block
(the shapes for which the merge step keeps the whole text). -/
def assistantSimple (m : JVal) : Bool :=
  !pyEq (roleD m) (.str "assistant") ||
  (match contentD m with
   | .str _ => true
   | .arr [_] => true
   | _ => false)

/-- An assistant turn whose string content, or first block, is non-blank
(the invariant the clean-and-merge loop maintains on retained turns). -/
def asstNonBlankFirst (m : JVal) : Bool :=
  !pyEq (roleD m) (.str "assistant") ||
  (match contentD m with
   | .str s => !pyBlank s
   | .arr (b :: _) => !blockTextBlank b
   | _ => false)

/-! ## Spec-side rendering of the normalizer steps 2-3 (for C8)

`specClean` is modelled from the spec's words (section 4.3, steps
"Empty-assistant removal" and "Adjacent-role merge"): first drop every
assistant turn with blank content, then walk the remaining turns merging
each turn into the previous retained turn when their roles coincide,
concatenating their texts with a newline into a single annotated block. -/

/-- A dict block with non-blank string text (the spec's "non-blank text"). -/
def nonBlankBlockP (b : JVal) : Bool :=
  match b with
  | .obj kvs =>
      match (kvs.lookup "text").getD (.str "") with
      | .str t => !pyBlank t
      | _ => false
  | _ => false

/-- Modelled from the spec: the empty-assistant removal test — an
assistant turn whose content is a blank string, or whose content blocks
all have blank text, is dropped. -/
def droppedAssistant (m : JVal) : Bool :=
  pyEq (roleD m) (.str "assistant") &&
  (match contentD m with
   | .str s => pyBlank s
   | .arr bs => !bs.any nonBlankBlockP
   | _ => false)

/-- The text of a turn's content, as consulted by the merge step: the
string itself, or the text of the first block. -/
def turnTextC (c : JVal) : String :=
  match c with
  | .str s => s
  | .arr (.obj kvs :: _) =>
      match (kvs.lookup "text").getD (.str "") with
      | .str t => t
      | v => pyStr v
  | _ => ""

/-- The text of a turn, as consulted by the merge step: its string
content, or the text of its first block. -/
def turnText (m : JVal) : String := turnTextC (contentD m)

/-- Modelled from the spec: one step of the adjacent-role merge over the
retained turns (accumulator kept in reverse). -/
def specMergeStep (acc : List JVal) (m : JVal) : List JVal :=
  match acc with
  | [] => [m]
  | prev :: tl =>
      if pyEq (roleD prev) (roleD m) then
        objSet prev "content" (.arr [textBlock (turnText prev ++ "\n" ++ turnText m)]) :: tl
      else m :: prev :: tl

/-- Modelled from the spec: empty-assistant removal followed by the
adjacent-role merge. -/
def specClean (msgs : List JVal) : List JVal :=
  (((msgs.filter fun m => !droppedAssistant m).foldl specMergeStep []).reverse)

/-- The relation between consecutive retained turns: both carry roles and
the roles differ. -/
def RoleR (a b : JVal) : Prop := roleNeB a b = true

/-! ## Concrete instances used by the claim theorems -/

/-- A turn literal. -/
def mkMsg (role : String) (content : JVal) : JVal :=
  .obj [("role", .str role), ("content", content)]

/-- The turns of a transformed payload, when the transformation succeeded
(empty on failure). -/
def okMsgs (r : Except String JVal) : List JVal :=
  match r with
  | .ok out => msgsOf out
  | .error _ => []

/-- Whether a text carries the injection wrapper opener. -/
def textHasWrapper (t : String) : Bool := strContains t "[System Instructions]"

/-- Whether any text content of a turn carries the injection wrapper. -/
def msgHasWrapper (m : JVal) : Bool :=
  match jlookup m "content" with
  | some (.str s) => textHasWrapper s
  | some (.arr bs) =>
      bs.any fun b =>
        match b with
        | .obj bkvs =>
            match (bkvs.lookup "text").getD (.str "") with
            | .str t => textHasWrapper t
            | _ => false
        | _ => false
  | _ => false

/-- Two assistant turns whose multi-block contents have blank first
blocks but non-blank later blocks. -/
def c1Body : JVal :=
  .obj [("messages", .arr
    [mkMsg "assistant" (.arr [.obj [("type", .str "text"), ("text", .str " ")],
                              .obj [("type", .str "text"), ("text", .str "x")]]),
     mkMsg "assistant" (.arr [.obj [("type", .str "text"), ("text", .str " ")],
                              .obj [("type", .str "text"), ("text", .str "y")]])])]

/-- Non-empty caller system text, a first user turn whose content is an
empty block list, and a later user turn with string content. -/
def c2Body : JVal :=
  .obj [("system", .str "S"),
        ("messages", .arr
          [mkMsg "user" (.arr []), mkMsg "assistant" (.str "x"),
           mkMsg "user" (.str "hi")])]

/-- A turn whose content list holds a bare string instead of a dict
block. -/
def c3Body : JVal :=
  .obj [("messages", .arr [mkMsg "user" (.arr [.str "hello"])])]

/-- A second turn lacking the `role` key. -/
def c4Body : JVal :=
  .obj [("messages", .arr
    [mkMsg "user" (.str "a"), .obj [("content", .str "b")]])]

/-- The spec's merge scenario: `[user:"a", assistant:"", assistant:"b",
assistant:"c"]`. -/
def c8Body : JVal :=
  .obj [("messages", .arr
    [mkMsg "user" (.str "a"), mkMsg "assistant" (.str ""),
     mkMsg "assistant" (.str "b"), mkMsg "assistant" (.str "c")])]

/-- The transformed payload of `c8Body`: empty assistant dropped, the two
remaining assistant turns merged into one block with text `"b\nc"`. -/
def c8Out : JVal :=
  .obj [("messages", .arr
          [.obj [("role", .str "user"), ("content", .arr [textBlock "a"])],
           .obj [("role", .str "assistant"), ("content", .arr [textBlock "b\nc"])]]),
        ("system", FIXED_SYSTEM),
        ("max_tokens", .num 32000), ("temperature", .num 1),
        ("stream", .bool true)]

/-- A body whose `stream` field is `false` but which carries a nested
object whose serialization contains `"stream": true`. -/
def c10Body : JVal :=
  .obj [("stream", .bool false),
        ("meta", .obj [("stream", .bool true)]),
        ("messages", .arr [mkMsg "user" (.str "hi")])]

/-- The transformed payload of `c10Body` (its `stream` field stays
`false`; `stream` is not re-appended because `setdefault` sees it). -/
def c10Out : JVal :=
  .obj [("stream", .bool false),
        ("meta", .obj [("stream", .bool true)]),
        ("messages", .arr
          [.obj [("role", .str "user"), ("content", .arr [textBlock "hi"])]]),
        ("system", FIXED_SYSTEM),
        ("max_tokens", .num 32000), ("temperature", .num 1)]

/-- A body whose `stream` field is `false` and whose single user turn's
text content literally contains both `"stream": true` and
`"stream":true`. -/
def c10TextBody : JVal :=
  .obj [("stream", .bool false),
        ("messages", .arr
          [mkMsg "user" (.str "note \"stream\": true and \"stream\":true here")])]

/-- The transformed payload of `c10TextBody` (its `stream` field stays
`false`; the turn text is lifted into an annotated block). -/
def c10TextOut : JVal :=
  .obj [("stream", .bool false),
        ("messages", .arr
          [.obj [("role", .str "user"),
                 ("content", .arr
                   [textBlock "note \"stream\": true and \"stream\":true here"])]]),
        ("system", FIXED_SYSTEM),
        ("max_tokens", .num 32000), ("temperature", .num 1)]

/-- A pre-reload global state. -/
def c7State0 : ProxyState :=
  { config := .null, DEBUG := .bool false, ANYROUTER_URL := .str "http://old",
    FIXED_UA := .str "ua", API_KEYS := .arr [], key_cycle := none }

/-- A parseable snapshot whose `api_keys` is a non-iterable number. -/
def c7Snapshot : JVal :=
  .obj [("anyrouter_url", .str "http://new"), ("api_keys", .num 5)]

/-- A simple well-formed body for witnesses. -/
def c1WitBody : JVal :=
  .obj [("messages", .arr
    [mkMsg "user" (.str "hi"), mkMsg "assistant" (.str "ok")])]

/-- The transformed payload of `c1WitBody`. -/
def c1WitOut : JVal :=
  .obj [("messages", .arr
          [.obj [("role", .str "user"), ("content", .arr [textBlock "hi"])],
           .obj [("role", .str "assistant"), ("content", .arr [textBlock "ok"])]]),
        ("system", FIXED_SYSTEM),
        ("max_tokens", .num 32000), ("temperature", .num 1),
        ("stream", .bool true)]

/-! ## Basic lemmas about dictionaries and blankness -/

theorem lookup_setKvs_self (kvs : List (String × JVal)) (k : String) (v : JVal) :
    (setKvs kvs k v).lookup k = some v := by
  induction kvs with
  | nil => simp [setKvs, List.lookup]
  | cons hd tl ih =>
      obtain ⟨k', v'⟩ := hd
      by_cases h : k' = k
      · subst h; simp [setKvs, List.lookup]
      · have h1 : (k' == k) = false := beq_eq_false_iff_ne.mpr h
        have h2 : (k == k') = false := beq_eq_false_iff_ne.mpr (Ne.symm h)
        simp [setKvs, List.lookup, h1, h2, ih]

theorem lookup_setKvs_ne (kvs : List (String × JVal)) (k k' : String) (v : JVal)
    (h : k' ≠ k) : (setKvs kvs k v).lookup k' = kvs.lookup k' := by
  induction kvs with
  | nil => simp [setKvs, List.lookup, beq_eq_false_iff_ne.mpr h]
  | cons hd tl ih =>
      obtain ⟨k0, v0⟩ := hd
      by_cases h0 : k0 = k
      · subst h0
        simp [setKvs, List.lookup, beq_eq_false_iff_ne.mpr h]
      · have h1 : (k0 == k) = false := beq_eq_false_iff_ne.mpr h0
        rcases hbe : (k' == k0) with _ | _
        · simp [setKvs, List.lookup, h1, hbe, ih]
        · simp [setKvs, List.lookup, h1, hbe]

theorem jlookup_objSet_self (kvs : List (String × JVal)) (k : String) (v : JVal) :
    jlookup (objSet (.obj kvs) k v) k = some v := by
  simp [objSet, jlookup, lookup_setKvs_self]

theorem jlookup_objSet_ne (kvs : List (String × JVal)) (k k' : String) (v : JVal)
    (h : k' ≠ k) : jlookup (objSet (.obj kvs) k v) k' = jlookup (.obj kvs) k' := by
  simp [objSet, jlookup, lookup_setKvs_ne _ _ _ _ h]

theorem jlookup_objSetdefault_ne (kvs : List (String × JVal)) (k k' : String) (v : JVal)
    (h : k' ≠ k) : jlookup (objSetdefault (.obj kvs) k v) k' = jlookup (.obj kvs) k' := by
  unfold objSetdefault
  by_cases hk : hasKeyKvs kvs k
  · simp [hk, jlookup]
  · have h1 : (k' == k) = false := beq_eq_false_iff_ne.mpr h
    simp [hk, jlookup, List.lookup_append, List.lookup, h1]

theorem dropWhile_all {p : Char → Bool} {l : List Char}
    (h : ∀ x ∈ l.dropWhile p, p x = true) : ∀ x ∈ l, p x = true := by
  intro x hx
  rw [← List.takeWhile_append_dropWhile (p := p) (l := l)] at hx
  rcases List.mem_append.1 hx with h1 | h2
  · exact List.mem_takeWhile_imp h1
  · exact h x h2

theorem stripL_eq_nil_iff (l : List Char) : stripL l = [] ↔ l.all isWS = true := by
  unfold stripL
  rw [List.reverse_eq_nil_iff, List.dropWhile_eq_nil_iff, List.all_eq_true]
  constructor
  · intro h x hx
    refine dropWhile_all (p := isWS) (l := l) ?_ x hx
    intro y hy
    exact h y (List.mem_reverse.2 hy)
  · intro h x hx
    exact h x ((List.dropWhile_sublist (p := isWS) (l := l)).subset (List.mem_reverse.1 hx))

theorem pyBlank_iff (s : String) : pyBlank s = true ↔ s.data.all isWS = true := by
  unfold pyBlank
  rw [List.isEmpty_iff, stripL_eq_nil_iff]

theorem pyBlank_append_left (a b : String) (h : pyBlank a = false) :
    pyBlank (a ++ b) = false := by
  rcases hb : pyBlank (a ++ b) with _ | _
  · rfl
  · exfalso
    have := (pyBlank_iff _).1 hb
    rw [String.data_append, List.all_append, Bool.and_eq_true] at this
    rw [← pyBlank_iff a] at this
    exact absurd this.1 (by simp [h])

/-! ## Inversion lemmas for the monadic primitives -/

theorem pyGet_ok {v d x : JVal} {k : String} (h : pyGet v k d = .ok x) :
    ∃ kvs, v = .obj kvs ∧ (kvs.lookup k).getD d = x := by
  cases v <;> simp [pyGet] at h
  case obj kvs => exact ⟨kvs, rfl, h⟩

theorem pyItem_ok {v x : JVal} {k : String} (h : pyItem v k = .ok x) :
    ∃ kvs, v = .obj kvs ∧ kvs.lookup k = some x := by
  cases v <;> simp [pyItem] at h
  case obj kvs =>
    refine ⟨kvs, rfl, ?_⟩
    cases hk : kvs.lookup k with
    | none => rw [hk] at h; cases h
    | some y => rw [hk] at h; cases h; rfl

/-! ## Adjacent-role distinctness through the clean-and-merge loop -/

theorem roleNeB_congr_right {b b' : JVal} (h : jlookup b' "role" = jlookup b "role")
    (a : JVal) : roleNeB a b' = roleNeB a b := by
  unfold roleNeB; rw [h]

theorem mergeMsgs_role {prev msg prev' : JVal} (h : mergeMsgs prev msg = .ok prev') :
    jlookup prev' "role" = jlookup prev "role" := by
  unfold mergeMsgs at h
  cases hpc : pyItem prev "content" with
  | error e => simp only [hpc] at h; cases h
  | ok pc =>
      simp only [hpc] at h
      obtain ⟨kvs, hobj, -⟩ := pyItem_ok hpc
      cases hpt : mergeTextVal pc with
      | error e => simp only [hpt] at h; cases h
      | ok pt =>
          simp only [hpt] at h
          cases hmc : pyItem msg "content" with
          | error e => simp only [hmc] at h; cases h
          | ok mc =>
              simp only [hmc] at h
              cases hct : mergeTextVal mc with
              | error e => simp only [hct] at h; cases h
              | ok ct =>
                  simp only [hct, Except.ok.injEq] at h
                  rw [← h]
                  subst hobj
                  exact jlookup_objSet_ne _ _ _ _ (by decide)

/-- Case analysis on a successful `cleanStep`: the turn was dropped, was
the first retained turn, was merged into the previous turn (preserving its
role), or was appended after a turn with a different role. -/
theorem cleanStep_ok {acc acc' : List JVal} {msg : JVal}
    (h : cleanStep acc msg = .ok acc') :
    acc' = acc ∨
    (acc = [] ∧ acc' = [msg]) ∨
    (∃ prev accTl prev', acc = prev :: accTl ∧ acc' = prev' :: accTl ∧
        jlookup prev' "role" = jlookup prev "role") ∨
    (∃ prev accTl, acc = prev :: accTl ∧ acc' = msg :: prev :: accTl ∧
        roleNeB prev msg = true) := by
  unfold cleanStep at h
  cases hrole : pyGet msg "role" .null with
  | error e => simp only [hrole] at h; cases h
  | ok role =>
      simp only [hrole] at h
      cases hdrop : dropCheck msg role with
      | error e => simp only [hdrop] at h; cases h
      | ok b =>
          simp only [hdrop] at h
          cases b with
          | true => cases h; exact Or.inl rfl
          | false =>
              cases acc with
              | nil => cases h; exact Or.inr (Or.inl ⟨rfl, rfl⟩)
              | cons prev accTl =>
                  cases hpr : pyItem prev "role" with
                  | error e => simp only [hpr] at h; cases h
                  | ok pr =>
                      simp only [hpr] at h
                      cases hmr : pyItem msg "role" with
                      | error e => simp only [hmr] at h; cases h
                      | ok mr =>
                          simp only [hmr] at h
                          by_cases heq : pyEq pr mr = true
                          · rw [if_pos heq] at h
                            cases hmg : mergeMsgs prev msg with
                            | error e => simp only [hmg] at h; cases h
                            | ok prev' =>
                                simp only [hmg] at h
                                cases h
                                exact Or.inr (Or.inr (Or.inl
                                  ⟨prev, accTl, prev', rfl, rfl, mergeMsgs_role hmg⟩))
                          · rw [if_neg heq] at h
                            cases h
                            refine Or.inr (Or.inr (Or.inr ⟨prev, accTl, rfl, rfl, ?_⟩))
                            obtain ⟨kv1, ho1, hl1⟩ := pyItem_ok hpr
                            obtain ⟨kv2, ho2, hl2⟩ := pyItem_ok hmr
                            unfold roleNeB
                            rw [show jlookup prev "role" = some pr from by
                                  rw [ho1]; exact hl1,
                                show jlookup msg "role" = some mr from by
                                  rw [ho2]; exact hl2]
                            simp [heq]

theorem cleanStep_chain {acc acc' : List JVal} {msg : JVal}
    (h : cleanStep acc msg = .ok acc')
    (hacc : List.Chain' (flip RoleR) acc) : List.Chain' (flip RoleR) acc' := by
  rcases cleanStep_ok h with h1 | ⟨h1, h2⟩ | ⟨prev, accTl, prev', h1, h2, h3⟩ |
    ⟨prev, accTl, h1, h2, h3⟩
  · rw [h1]; exact hacc
  · rw [h2]; exact List.chain'_singleton msg
  · subst h1; subst h2
    cases accTl with
    | nil => exact List.chain'_singleton _
    | cons a tl =>
        rw [List.chain'_cons] at hacc ⊢
        refine ⟨?_, hacc.2⟩
        have h1 : RoleR a prev := hacc.1
        show roleNeB a prev' = true
        rw [roleNeB_congr_right h3]
        exact h1
  · subst h1; subst h2
    rw [List.chain'_cons]
    exact ⟨h3, hacc⟩

theorem cleanLoop_chain (msgs : List JVal) : ∀ acc res,
    cleanLoop acc msgs = .ok res → List.Chain' (flip RoleR) acc →
    List.Chain' RoleR res := by
  induction msgs with
  | nil =>
      intro acc res h hacc
      unfold cleanLoop at h
      cases h
      exact List.chain'_reverse.mpr hacc
  | cons msg rest ih =>
      intro acc res h hacc
      unfold cleanLoop at h
      cases hstep : cleanStep acc msg with
      | error e => simp only [hstep] at h; cases h
      | ok acc' =>
          simp only [hstep] at h
          exact ih acc' res h (cleanStep_chain hstep hacc)

/-! ## The annotation pass preserves roles -/

theorem roleNeB_congr_left {a a' : JVal} (h : jlookup a' "role" = jlookup a "role")
    (b : JVal) : roleNeB a' b = roleNeB a b := by
  unfold roleNeB; rw [h]

theorem annotateMsg_role {m m' : JVal} (h : annotateMsg m = .ok m') :
    jlookup m' "role" = jlookup m "role" := by
  unfold annotateMsg at h
  cases hc : pyGet m "content" (.str "") with
  | error e => simp only [hc] at h; cases h
  | ok c =>
      simp only [hc] at h
      obtain ⟨kvs, hobj, -⟩ := pyGet_ok hc
      subst hobj
      cases c with
      | str s => cases h; exact jlookup_objSet_ne _ _ _ _ (by decide)
      | arr bs => cases h; exact jlookup_objSet_ne _ _ _ _ (by decide)
      | null => cases h; rfl
      | bool b => cases h; rfl
      | num n => cases h; rfl
      | obj kvs2 => cases h; rfl

theorem annotateList_roles {l : List JVal} : ∀ {l' : List JVal},
    annotateList l = .ok l' →
    List.Forall₂ (fun m m' => jlookup m' "role" = jlookup m "role") l l' := by
  induction l with
  | nil => intro l' h; unfold annotateList at h; cases h; exact List.Forall₂.nil
  | cons m rest ih =>
      intro l' h
      unfold annotateList at h
      cases hm : annotateMsg m with
      | error e => simp only [hm] at h; cases h
      | ok m' =>
          simp only [hm] at h
          cases hr : annotateList rest with
          | error e => simp only [hr] at h; cases h
          | ok rest' =>
              simp only [hr] at h
              cases h
              exact List.Forall₂.cons (annotateMsg_role hm) (ih hr)

theorem chain_of_forall₂ {l l' : List JVal}
    (hf : List.Forall₂ (fun m m' => jlookup m' "role" = jlookup m "role") l l')
    (hc : List.Chain' RoleR l) : List.Chain' RoleR l' := by
  induction hf with
  | nil => exact List.chain'_nil
  | @cons a b l1 l2 hab htail ih =>
      cases htail with
      | nil => exact List.chain'_singleton _
      | @cons a2 b2 l12 l22 hab2 htail2 =>
          rw [List.chain'_cons] at hc ⊢
          refine ⟨?_, ih hc.2⟩
          have h1 : roleNeB a a2 = true := hc.1
          show roleNeB b b2 = true
          rw [roleNeB_congr_left hab, roleNeB_congr_right hab2]
          exact h1

/-! ## Decomposition of a successful `transform_body` run -/

theorem objSetdefault_obj_lookup (kvs : List (String × JVal)) (k k' : String)
    (w : JVal) (h : k' ≠ k) :
    ∃ kvs', objSetdefault (.obj kvs) k w = .obj kvs' ∧
      kvs'.lookup k' = kvs.lookup k' := by
  unfold objSetdefault
  by_cases hk : hasKeyKvs kvs k
  · exact ⟨kvs, by simp [hk], rfl⟩
  · refine ⟨kvs ++ [(k, w)], by simp [hk], ?_⟩
    simp [List.lookup_append, List.lookup, beq_eq_false_iff_ne.mpr h]

theorem normalizePhase_ok {b2 out : JVal} (h : normalizePhase b2 = .ok out) :
    ∃ kvs2 msgs cleaned annotated,
      b2 = .obj kvs2 ∧
      toIterList ((kvs2.lookup "messages").getD (.arr [])) = .ok msgs ∧
      cleanLoop [] msgs = .ok cleaned ∧
      annotateList cleaned = .ok annotated ∧
      out = objSetdefault (objSetdefault (objSetdefault
              (objSet (objSet b2 "messages" (.arr cleaned)) "messages" (.arr annotated))
              "max_tokens" (.num 32000)) "temperature" (.num 1)) "stream" (.bool true) := by
  unfold normalizePhase at h
  cases hmv : pyGet b2 "messages" (.arr []) with
  | error e => simp only [hmv] at h; cases h
  | ok msgsV =>
      simp only [hmv] at h
      obtain ⟨kvs2, hobj, hval⟩ := pyGet_ok hmv
      cases hit : toIterList msgsV with
      | error e => simp only [hit] at h; cases h
      | ok msgs =>
          simp only [hit] at h
          cases hcl : cleanLoop [] msgs with
          | error e => simp only [hcl] at h; cases h
          | ok cleaned =>
              simp only [hcl] at h
              cases han : annotateList cleaned with
              | error e => simp only [han] at h; cases h
              | ok annotated =>
                  simp only [han] at h
                  cases h
                  exact ⟨kvs2, msgs, cleaned, annotated, hobj,
                    by rw [hval]; exact hit, hcl, han, rfl⟩

theorem msgsOf_normal_out {kvs2 : List (String × JVal)} (cleaned annotated : List JVal) :
    msgsOf (objSetdefault (objSetdefault (objSetdefault
      (objSet (objSet (.obj kvs2) "messages" (.arr cleaned)) "messages" (.arr annotated))
      "max_tokens" (.num 32000)) "temperature" (.num 1)) "stream" (.bool true)) =
      annotated := by
  have h1 : objSet (.obj kvs2) "messages" (.arr cleaned) =
      .obj (setKvs kvs2 "messages" (.arr cleaned)) := rfl
  have h2 : objSet (.obj (setKvs kvs2 "messages" (.arr cleaned))) "messages"
      (.arr annotated) =
      .obj (setKvs (setKvs kvs2 "messages" (.arr cleaned)) "messages" (.arr annotated)) :=
    rfl
  rw [h1, h2]
  obtain ⟨kA, hA, hlA⟩ := objSetdefault_obj_lookup
    (setKvs (setKvs kvs2 "messages" (.arr cleaned)) "messages" (.arr annotated))
    "max_tokens" "messages" (.num 32000) (by decide)
  rw [hA]
  obtain ⟨kB, hB, hlB⟩ := objSetdefault_obj_lookup kA
    "temperature" "messages" (.num 1) (by decide)
  rw [hB]
  obtain ⟨kC, hC, hlC⟩ := objSetdefault_obj_lookup kB
    "stream" "messages" (.bool true) (by decide)
  rw [hC]
  simp only [msgsOf, jlookup]
  rw [hlC, hlB, hlA, lookup_setKvs_self]

theorem transform_body_ok_decomp {body out : JVal} (h : transform_body body = .ok out) :
    ∃ (kvs2 : List (String × JVal)) (msgs cleaned annotated : List JVal),
      toIterList ((kvs2.lookup "messages").getD (.arr [])) = .ok msgs ∧
      cleanLoop [] msgs = .ok cleaned ∧
      annotateList cleaned = .ok annotated ∧
      msgsOf out = annotated := by
  unfold transform_body at h
  cases hsys : pyGet body "system" .null with
  | error e => simp only [hsys] at h; cases h
  | ok sysv =>
      simp only [hsys] at h
      cases hg : get_user_system_text sysv with
      | error e => simp only [hg] at h; cases h
      | ok us =>
          simp only [hg] at h
          cases hinj : injectPhase us (objSet body "system" FIXED_SYSTEM) with
          | error e => simp only [hinj] at h; cases h
          | ok b2 =>
              simp only [hinj] at h
              obtain ⟨kvs2, msgs, cleaned, annotated, hobj, hit, hcl, han, hout⟩ :=
                normalizePhase_ok h
              refine ⟨kvs2, msgs, cleaned, annotated, hit, hcl, han, ?_⟩
              rw [hout, hobj]
              exact msgsOf_normal_out cleaned annotated

/-! ## Evaluation of the monadic loop under well-formed turns -/

theorem wfMsg_parts {kvs : List (String × JVal)} (h : wfMsg (.obj kvs) = true) :
    ∃ r c, kvs.lookup "role" = some r ∧ kvs.lookup "content" = some c ∧
      wfContent c = true := by
  unfold wfMsg at h
  rw [Bool.and_eq_true] at h
  obtain ⟨h1, h2⟩ := h
  cases hr : kvs.lookup "role" with
  | none => rw [hr] at h1; cases h1
  | some r =>
      cases hc : kvs.lookup "content" with
      | none => rw [hc] at h2; cases h2
      | some c => exact ⟨r, c, rfl, rfl, by rw [hc] at h2; exact h2⟩

theorem anyNonBlankBlock_wf {bs : List JVal} (h : bs.all wfBlock = true) :
    anyNonBlankBlock bs = .ok (bs.any nonBlankBlockP) := by
  induction bs with
  | nil => rfl
  | cons b rest ih =>
      rw [List.all_cons, Bool.and_eq_true] at h
      obtain ⟨hb, hrest⟩ := h
      cases b with
      | obj kvsb =>
          cases ht : kvsb.lookup "text" with
          | none =>
              simp [anyNonBlankBlock, ht, nonBlankBlockP, ih hrest,
                show pyBlank "" = true from rfl]
          | some tv =>
              simp only [wfBlock, ht] at hb
              cases tv with
              | str t =>
                  rcases hbl : pyBlank t with _ | _
                  · simp [anyNonBlankBlock, ht, nonBlankBlockP, hbl]
                  · simp [anyNonBlankBlock, ht, nonBlankBlockP, hbl, ih hrest]
              | null => cases hb
              | bool b => cases hb
              | num n => cases hb
              | arr xs => cases hb
              | obj kk => cases hb
      | null =>
          simp only [anyNonBlankBlock, List.any_cons,
            show nonBlankBlockP .null = false from rfl, Bool.false_or]
          exact ih hrest
      | bool bb =>
          simp only [anyNonBlankBlock, List.any_cons,
            show nonBlankBlockP (.bool bb) = false from rfl, Bool.false_or]
          exact ih hrest
      | num n =>
          simp only [anyNonBlankBlock, List.any_cons,
            show nonBlankBlockP (.num n) = false from rfl, Bool.false_or]
          exact ih hrest
      | str s =>
          simp only [anyNonBlankBlock, List.any_cons,
            show nonBlankBlockP (.str s) = false from rfl, Bool.false_or]
          exact ih hrest
      | arr xs =>
          simp only [anyNonBlankBlock, List.any_cons,
            show nonBlankBlockP (.arr xs) = false from rfl, Bool.false_or]
          exact ih hrest

theorem dropCheck_wf {kvs : List (String × JVal)} (h : wfMsg (.obj kvs) = true) :
    dropCheck (.obj kvs) (roleD (.obj kvs)) = .ok (droppedAssistant (.obj kvs)) := by
  obtain ⟨r, c, hr, hc, hwc⟩ := wfMsg_parts h
  have hcd : contentD (.obj kvs) = c := by
    simp only [contentD, jlookup, hc, Option.getD_some]
  unfold dropCheck droppedAssistant
  by_cases hassist : pyEq (roleD (.obj kvs)) (.str "assistant") = true
  · rw [if_pos hassist, hassist, Bool.true_and]
    rw [show pyGet (.obj kvs) "content" (.str "") = .ok c from by
          simp only [pyGet, hc, Option.getD_some]]
    rw [hcd]
    cases c with
    | str s => rfl
    | arr bs =>
        have hall : bs.all wfBlock = true := by
          cases bs with
          | nil => cases hwc
          | cons b rest => simp only [wfContent] at hwc; exact hwc
        simp only [assistantDroppable]
        rw [anyNonBlankBlock_wf hall]
    | null => cases hwc
    | bool b => cases hwc
    | num n => cases hwc
    | obj kk => cases hwc
  · rw [if_neg hassist]
    rw [show pyEq (roleD (.obj kvs)) (.str "assistant") = false from by
          simpa using hassist]
    rfl

theorem mergeTextVal_eval {c : JVal} (h : wfContent c = true) :
    ∃ v, mergeTextVal c = .ok v ∧ pyStr v = turnTextC c := by
  cases c with
  | str s => exact ⟨.str s, rfl, rfl⟩
  | arr bs =>
      cases bs with
      | nil => cases h
      | cons b rest =>
          simp only [wfContent, List.all_cons, Bool.and_eq_true] at h
          obtain ⟨hb, -⟩ := h
          cases b with
          | obj kvsb =>
              refine ⟨(kvsb.lookup "text").getD (.str ""), rfl, ?_⟩
              simp only [turnTextC]
              cases htv : (kvsb.lookup "text").getD (.str "") with
              | str t => rfl
              | null => rfl
              | bool bb => rfl
              | num n => rfl
              | arr xs => rfl
              | obj kk => rfl
          | null => cases hb
          | bool bb => cases hb
          | num n => cases hb
          | str s => cases hb
          | arr xs => cases hb
  | null => cases h
  | bool b => cases h
  | num n => cases h
  | obj kk => cases h

theorem mergeMsgs_wf {pkvs mkvs : List (String × JVal)}
    (hp : wfMsg (.obj pkvs) = true) (hm : wfMsg (.obj mkvs) = true) :
    mergeMsgs (.obj pkvs) (.obj mkvs) =
      .ok (objSet (.obj pkvs) "content"
            (.arr [textBlock (turnText (.obj pkvs) ++ "\n" ++ turnText (.obj mkvs))])) := by
  obtain ⟨rp, cp, hrp, hcp, hwcp⟩ := wfMsg_parts hp
  obtain ⟨rm, cm, hrm, hcm, hwcm⟩ := wfMsg_parts hm
  obtain ⟨vp, hvp, hsp⟩ := mergeTextVal_eval hwcp
  obtain ⟨vm, hvm, hsm⟩ := mergeTextVal_eval hwcm
  unfold mergeMsgs
  rw [show pyItem (.obj pkvs) "content" = .ok cp from by simp only [pyItem, hcp]]
  simp only [hvp]
  rw [show pyItem (.obj mkvs) "content" = .ok cm from by simp only [pyItem, hcm]]
  simp only [hvm, hsp, hsm]
  have h1 : turnText (.obj pkvs) = turnTextC cp := by
    simp only [turnText, contentD, jlookup, hcp, Option.getD_some]
  have h2 : turnText (.obj mkvs) = turnTextC cm := by
    simp only [turnText, contentD, jlookup, hcm, Option.getD_some]
  rw [h1, h2]

theorem cleanStep_wf {acc : List JVal} {m : JVal} (hm : wfMsg m = true)
    (hacc : acc.all wfMsg = true) :
    cleanStep acc m = .ok (if droppedAssistant m then acc else specMergeStep acc m) := by
  cases m with
  | obj mkvs =>
      obtain ⟨rm, cm, hrm, hcm, hwcm⟩ := wfMsg_parts hm
      have hpg : pyGet (.obj mkvs) "role" .null = .ok (roleD (.obj mkvs)) := by
        simp only [pyGet, roleD, jlookup]
      rcases hdp : droppedAssistant (.obj mkvs) with _ | _
      · simp only [cleanStep, hpg, dropCheck_wf hm, hdp, Bool.false_eq_true, if_false]
        cases acc with
        | nil => simp [specMergeStep]
        | cons prev accTl =>
            rw [List.all_cons, Bool.and_eq_true] at hacc
            obtain ⟨hprev, -⟩ := hacc
            cases prev with
            | obj pkvs =>
                obtain ⟨rp, cp, hrp, hcp, hwcp⟩ := wfMsg_parts hprev
                have hip : pyItem (.obj pkvs) "role" = .ok rp := by
                  simp only [pyItem, hrp]
                have him : pyItem (.obj mkvs) "role" = .ok rm := by
                  simp only [pyItem, hrm]
                have hrpD : roleD (.obj pkvs) = rp := by
                  simp only [roleD, jlookup, hrp, Option.getD_some]
                have hrmD : roleD (.obj mkvs) = rm := by
                  simp only [roleD, jlookup, hrm, Option.getD_some]
                simp only [hip, him, specMergeStep, hrpD, hrmD]
                by_cases heq : pyEq rp rm = true
                · rw [if_pos heq, if_pos heq, mergeMsgs_wf hprev hm]
                · rw [if_neg heq, if_neg heq]
            | null => cases hprev
            | bool b => cases hprev
            | num n => cases hprev
            | str s => cases hprev
            | arr xs => cases hprev
      · simp only [cleanStep, hpg, dropCheck_wf hm, hdp, if_true]
  | null => cases hm
  | bool b => cases hm
  | num n => cases hm
  | str s => cases hm
  | arr xs => cases hm

/-! ## The clean-and-merge loop equals the spec's drop-then-merge staging -/

theorem wfContent_textBlock (t : String) : wfContent (.arr [textBlock t]) = true := rfl

theorem wfMsg_objSet_content {pkvs : List (String × JVal)}
    (hp : wfMsg (.obj pkvs) = true) {v : JVal} (hv : wfContent v = true) :
    wfMsg (objSet (.obj pkvs) "content" v) = true := by
  obtain ⟨r, c, hr, hc, -⟩ := wfMsg_parts hp
  simp only [objSet, wfMsg]
  rw [lookup_setKvs_ne _ _ _ _ (by decide : "role" ≠ "content"), hr,
      lookup_setKvs_self]
  simp [hv]

theorem specMergeStep_wf {acc : List JVal} {m : JVal} (hm : wfMsg m = true)
    (hacc : acc.all wfMsg = true) : (specMergeStep acc m).all wfMsg = true := by
  cases acc with
  | nil => simp [specMergeStep, hm]
  | cons prev accTl =>
      rw [List.all_cons, Bool.and_eq_true] at hacc
      obtain ⟨hprev, htl⟩ := hacc
      simp only [specMergeStep]
      by_cases heq : pyEq (roleD prev) (roleD m) = true
      · rw [if_pos heq]
        rw [List.all_cons, Bool.and_eq_true]
        refine ⟨?_, htl⟩
        cases prev with
        | obj pkvs => exact wfMsg_objSet_content hprev (wfContent_textBlock _)
        | null => cases hprev
        | bool b => cases hprev
        | num n => cases hprev
        | str s => cases hprev
        | arr xs => cases hprev
      · rw [if_neg heq]
        simp [hm, hprev, htl]

theorem all_filter_of_all {l : List JVal} {p q : JVal → Bool} (h : l.all q = true) :
    (l.filter p).all q = true := by
  rw [List.all_eq_true] at h ⊢
  intro x hx
  exact h x (List.mem_of_mem_filter hx)

theorem cleanLoop_eq_spec (msgs : List JVal) : ∀ acc,
    msgs.all wfMsg = true → acc.all wfMsg = true →
    cleanLoop acc msgs =
      .ok (((msgs.filter fun m => !droppedAssistant m).foldl specMergeStep acc).reverse) := by
  induction msgs with
  | nil => intro acc _ _; rfl
  | cons m rest ih =>
      intro acc hall hacc
      rw [List.all_cons, Bool.and_eq_true] at hall
      obtain ⟨hm, hrest⟩ := hall
      unfold cleanLoop
      simp only [cleanStep_wf hm hacc]
      rcases hdp : droppedAssistant m with _ | _
      · simp only [hdp, Bool.false_eq_true, if_false]
        rw [ih _ hrest (specMergeStep_wf hm hacc),
            List.filter_cons_of_pos (by simp [hdp]), List.foldl_cons]
      · simp only [hdp, if_true]
        rw [ih acc hrest hacc, List.filter_cons_of_neg (by simp [hdp])]

/-! ## Properties of the injection loop -/

theorem pyEq_str_right {x : JVal} {s : String} (h : pyEq x (.str s) = true) :
    x = .str s := by
  cases x with
  | str a => unfold pyEq at h; rw [eq_of_beq h]
  | null => cases h
  | bool b => cases h
  | num n => cases h
  | arr xs => cases h
  | obj kvs => cases h

/-- Turns before the first user turn pass through the loop untouched;
a list with no user turn (all dict turns) passes through whole. -/
theorem injectLoop_not_user {pfx : String} {msgs : List JVal}
    (h : msgs.all (fun m => isObjB m && !pyEq (roleD m) (.str "user")) = true) :
    injectLoop pfx msgs = .ok msgs := by
  induction msgs with
  | nil => rfl
  | cons m rest ih =>
      rw [List.all_cons, Bool.and_eq_true] at h
      obtain ⟨hm, hrest⟩ := h
      rw [Bool.and_eq_true] at hm
      obtain ⟨hobj, hnu⟩ := hm
      cases m with
      | obj kvs =>
          unfold injectLoop
          rw [show pyGet (.obj kvs) "role" .null = .ok (roleD (.obj kvs)) from by
                simp only [pyGet, roleD, jlookup]]
          simp only [show pyEq (roleD (.obj kvs)) (.str "user") = false from by
                simpa using hnu, Bool.false_eq_true, if_false, ih hrest]
      | null => cases hobj
      | bool b => cases hobj
      | num n => cases hobj
      | str s => cases hobj
      | arr xs => cases hobj

/-- A successful injection run relates input and output turns pointwise:
each output turn is its input turn, or a content-only rewrite of a
user-role input turn that stays well-formed. -/
theorem injectLoop_wf (pfx : String) {msgs : List JVal}
    (h : msgs.all wfMsg = true) :
    ∃ msgs', injectLoop pfx msgs = .ok msgs' ∧
      List.Forall₂ (fun m m' => m' = m ∨
        (wfMsg m' = true ∧ jlookup m' "role" = jlookup m "role" ∧
         pyEq (roleD m) (.str "user") = true)) msgs msgs' := by
  induction msgs with
  | nil => exact ⟨[], rfl, List.Forall₂.nil⟩
  | cons m rest ih =>
      rw [List.all_cons, Bool.and_eq_true] at h
      obtain ⟨hm, hrest⟩ := h
      cases m with
      | obj mkvs =>
          obtain ⟨rm, cm, hrm, hcm, hwcm⟩ := wfMsg_parts hm
          have hpg : pyGet (.obj mkvs) "role" .null = .ok (roleD (.obj mkvs)) := by
            simp only [pyGet, roleD, jlookup]
          by_cases huser : pyEq (roleD (.obj mkvs)) (.str "user") = true
          · have hcd : (mkvs.lookup "content").getD (.str "") = cm := by
              rw [hcm]; rfl
            have hpc : pyGet (.obj mkvs) "content" (.str "") = .ok cm := by
              simp only [pyGet, hcd]
            cases cm with
            | str s =>
                refine ⟨objSet (.obj mkvs) "content" (.str (pfx ++ s)) :: rest, ?_, ?_⟩
                · unfold injectLoop
                  simp only [hpg, huser, if_true, hpc]
                · refine List.Forall₂.cons (Or.inr ⟨?_, ?_, huser⟩)
                    ((List.forall₂_same).2 fun x _ => Or.inl rfl)
                  · exact wfMsg_objSet_content hm rfl
                  · exact jlookup_objSet_ne _ _ _ _ (by decide)
            | arr bs =>
                cases bs with
                | nil => cases hwcm
                | cons b brest =>
                    simp only [wfContent, List.all_cons, Bool.and_eq_true] at hwcm
                    obtain ⟨hb, hbrest⟩ := hwcm
                    cases b with
                    | obj bkvs =>
                        have hbt : ∃ t, (bkvs.lookup "text").getD (.str "") = .str t := by
                          cases htx : bkvs.lookup "text" with
                          | none => exact ⟨"", rfl⟩
                          | some tv =>
                              simp only [wfBlock, htx] at hb
                              cases tv with
                              | str t => exact ⟨t, rfl⟩
                              | null => cases hb
                              | bool bb => cases hb
                              | num n => cases hb
                              | arr xs => cases hb
                              | obj kk => cases hb
                        obtain ⟨t, ht⟩ := hbt
                        refine ⟨objSet (.obj mkvs) "content"
                            (.arr (objSet (.obj bkvs) "text" (.str (pfx ++ t)) :: brest))
                            :: rest, ?_, ?_⟩
                        · unfold injectLoop
                          simp only [hpg, huser, if_true, hpc,
                            show pyGet (.obj bkvs) "text" (.str "") = .ok (.str t) from by
                              simp only [pyGet, ht]]
                        · refine List.Forall₂.cons (Or.inr ⟨?_, ?_, huser⟩)
                            ((List.forall₂_same).2 fun x _ => Or.inl rfl)
                          · refine wfMsg_objSet_content hm ?_
                            simp only [wfContent, objSet, List.all_cons,
                              Bool.and_eq_true]
                            refine ⟨?_, hbrest⟩
                            simp only [wfBlock, lookup_setKvs_self]
                          · exact jlookup_objSet_ne _ _ _ _ (by decide)
                    | null => cases hb
                    | bool bb => cases hb
                    | num n => cases hb
                    | str s => cases hb
                    | arr xs => cases hb
            | null => cases hwcm
            | bool bb => cases hwcm
            | num n => cases hwcm
            | obj kk => cases hwcm
          · obtain ⟨rest', hrest', hf⟩ := ih hrest
            refine ⟨.obj mkvs :: rest', ?_, List.Forall₂.cons (Or.inl rfl) hf⟩
            unfold injectLoop
            simp only [hpg, show pyEq (roleD (.obj mkvs)) (.str "user") = false from by
              simpa using huser, Bool.false_eq_true, if_false, hrest']
      | null => cases hm
      | bool b => cases hm
      | num n => cases hm
      | str s => cases hm
      | arr xs => cases hm

/-- Every turn consumed without error by the clean-and-merge loop is a
dict (the very first `msg.get` raises otherwise). -/
theorem cleanStep_ok_obj {acc acc' : List JVal} {m : JVal}
    (h : cleanStep acc m = .ok acc') : isObjB m = true := by
  cases m with
  | obj kvs => rfl
  | null => cases h
  | bool b => cases h
  | num n => cases h
  | str s => cases h
  | arr xs => cases h

theorem cleanLoop_all_obj {msgs : List JVal} : ∀ {acc res : List JVal},
    cleanLoop acc msgs = .ok res → msgs.all isObjB = true := by
  induction msgs with
  | nil => intro acc res _; rfl
  | cons m rest ih =>
      intro acc res h
      unfold cleanLoop at h
      cases hstep : cleanStep acc m with
      | error e => simp only [hstep] at h; cases h
      | ok acc' =>
          simp only [hstep] at h
          rw [List.all_cons, Bool.and_eq_true]
          exact ⟨cleanStep_ok_obj hstep, ih h⟩

/-- Outcomes of the injection phase: the body is returned unchanged, or
its message list is replaced by the result of the injection loop run on
the previous message list. -/
theorem injectPhase_ok {us : String} {b1 b2 : JVal}
    (h : injectPhase us b1 = .ok b2) :
    b2 = b1 ∨
    ∃ ms msgs', toIterList ((jlookup b1 "messages").getD (.arr [])) = .ok ms ∧
      injectLoop (sysWrapper us) ms = .ok msgs' ∧
      b2 = objSet b1 "messages" (.arr msgs') := by
  unfold injectPhase at h
  by_cases hus : us ≠ ""
  · rw [if_pos hus] at h
    cases hmv : pyGet b1 "messages" (.arr []) with
    | error e => simp only [hmv] at h; cases h
    | ok msgsV =>
        simp only [hmv] at h
        obtain ⟨kvs1, hobj1, hval⟩ := pyGet_ok hmv
        cases hit : toIterList msgsV with
        | error e => simp only [hit] at h; cases h
        | ok msgs =>
            simp only [hit] at h
            cases hil : injectLoop (sysWrapper us) msgs with
            | error e => simp only [hil] at h; cases h
            | ok msgs' =>
                simp only [hil] at h
                cases msgsV with
                | arr ms0 =>
                    cases h
                    refine Or.inr ⟨msgs, msgs', ?_, hil, rfl⟩
                    rw [show jlookup b1 "messages" = kvs1.lookup "messages" from by
                          rw [hobj1]; rfl, hval]
                    exact hit
                | null => cases h; exact Or.inl rfl
                | bool b => cases h; exact Or.inl rfl
                | num n => cases h; exact Or.inl rfl
                | str s => cases h; exact Or.inl rfl
                | obj kk => cases h; exact Or.inl rfl
  · rw [if_neg hus] at h
    cases h
    exact Or.inl rfl

/-- An iteration whose elements are all dicts either came from a list
value or is empty (strings iterate as characters, dicts as string keys). -/
theorem toIterList_ok_obj {v : JVal} {ms : List JVal} (hit : toIterList v = .ok ms)
    (hobj : ms.all isObjB = true) : ms = [] ∨ v = .arr ms := by
  cases v with
  | arr l => cases hit; exact Or.inr rfl
  | str s =>
      cases hit
      cases hd : s.data with
      | nil => exact Or.inl rfl
      | cons c cs =>
          rw [hd] at hobj
          simp only [List.map_cons, List.all_cons, Bool.and_eq_true] at hobj
          cases hobj.1
  | obj kvs =>
      cases hit
      cases kvs with
      | nil => exact Or.inl rfl
      | cons kv rest =>
          simp only [List.map_cons, List.all_cons, Bool.and_eq_true] at hobj
          cases hobj.1
  | null => cases hit
  | bool b => cases hit
  | num n => cases hit

/-- The injection loop raises on a non-dict head turn. -/
theorem injectLoop_cons_obj {pfx : String} {m : JVal} {rest res : List JVal}
    (h : injectLoop pfx (m :: rest) = .ok res) : isObjB m = true := by
  cases m with
  | obj kvs => rfl
  | null => cases h
  | bool b => cases h
  | num n => cases h
  | str s => cases h
  | arr xs => cases h

/-- Relation between the turns fed into the clean-and-merge loop during a
successful `transform_body` run and the inbound body's message list: they
are empty, the inbound list itself, or an injection-loop rewrite of it. -/
theorem transform_msgs_rel {body out : JVal} (h : transform_body body = .ok out) :
    ∃ msgs cleaned annotated,
      cleanLoop [] msgs = .ok cleaned ∧
      annotateList cleaned = .ok annotated ∧
      msgsOf out = annotated ∧
      (msgs = [] ∨
        ∃ ms, jlookup body "messages" = some (.arr ms) ∧
          (msgs = ms ∨ ∃ pfx, injectLoop pfx ms = .ok msgs)) := by
  unfold transform_body at h
  cases hsys : pyGet body "system" .null with
  | error e => simp only [hsys] at h; cases h
  | ok sysv =>
      simp only [hsys] at h
      obtain ⟨bkvs, hbody, -⟩ := pyGet_ok hsys
      cases hg : get_user_system_text sysv with
      | error e => simp only [hg] at h; cases h
      | ok us =>
          simp only [hg] at h
          cases hinj : injectPhase us (objSet body "system" FIXED_SYSTEM) with
          | error e => simp only [hinj] at h; cases h
          | ok b2 =>
              simp only [hinj] at h
              obtain ⟨kvs2, msgs, cleaned, annotated, hobj2, hit, hcl, han, hout⟩ :=
                normalizePhase_ok h
              have hmsgsOf : msgsOf out = annotated := by
                rw [hout, hobj2]; exact msgsOf_normal_out cleaned annotated
              refine ⟨msgs, cleaned, annotated, hcl, han, hmsgsOf, ?_⟩
              have hlook1 : jlookup (objSet body "system" FIXED_SYSTEM) "messages" =
                  jlookup body "messages" := by
                rw [hbody]
                exact jlookup_objSet_ne _ _ _ _ (by decide)
              have hallobj : msgs.all isObjB = true := cleanLoop_all_obj hcl
              rcases injectPhase_ok hinj with hsame | ⟨ms0, msgs', hit0, hil, hb2⟩
              · -- body untouched by injection
                have hkvs2 : (kvs2.lookup "messages" : Option JVal) =
                    jlookup body "messages" := by
                  rw [show (kvs2.lookup "messages" : Option JVal) =
                        jlookup (.obj kvs2) "messages" from rfl, ← hobj2, hsame,
                      hlook1]
                rw [hkvs2] at hit
                cases hlb : jlookup body "messages" with
                | none =>
                    rw [hlb] at hit
                    cases hit
                    exact Or.inl rfl
                | some w =>
                    rw [hlb] at hit
                    rcases toIterList_ok_obj hit hallobj with hnil | harr
                    · exact Or.inl hnil
                    · have harr' : w = .arr msgs := by simpa using harr
                      exact Or.inr ⟨msgs, by rw [harr'], Or.inl rfl⟩
              · -- injection rewrote the message list
                have hb2' : b2 = .obj (setKvs (setKvs bkvs "system" FIXED_SYSTEM)
                    "messages" (.arr msgs')) := by
                  rw [hb2, hbody]; rfl
                have hkvs2 : kvs2 = setKvs (setKvs bkvs "system" FIXED_SYSTEM)
                    "messages" (.arr msgs') := by
                  have := hobj2.symm.trans hb2'
                  exact JVal.obj.inj this
                have hlookup2 : (kvs2.lookup "messages" : Option JVal) =
                    some (.arr msgs') := by
                  rw [hkvs2, lookup_setKvs_self]
                rw [hlookup2] at hit
                cases hit
                rw [hlook1] at hit0
                cases hlb : jlookup body "messages" with
                | none =>
                    rw [hlb] at hit0
                    cases hit0
                    cases hil
                    exact Or.inl rfl
                | some w =>
                    rw [hlb] at hit0
                    cases w with
                    | arr ms =>
                        cases hit0
                        exact Or.inr ⟨ms0, rfl, Or.inr ⟨sysWrapper us, hil⟩⟩
                    | str s =>
                        cases hit0
                        cases hd : s.data with
                        | nil =>
                            rw [hd] at hil
                            cases hil
                            exact Or.inl rfl
                        | cons c cs =>
                            rw [hd] at hil
                            simp only [List.map_cons] at hil
                            cases injectLoop_cons_obj hil
                    | obj kvsw =>
                        cases hit0
                        cases kvsw with
                        | nil =>
                            cases hil
                            exact Or.inl rfl
                        | cons kv rest =>
                            simp only [List.map_cons] at hil
                            cases injectLoop_cons_obj hil
                    | null => cases hit0
                    | bool bb => cases hit0
                    | num n => cases hit0

/-! ## No blank assistant turn under string-or-single-block contents -/

theorem lookup_append_single_ne (kvs : List (String × JVal)) {k k2 : String}
    (v : JVal) (h : k ≠ k2) : ((kvs ++ [(k2, v)]).lookup k : Option JVal) =
      kvs.lookup k := by
  rw [List.lookup_append]
  cases hk : kvs.lookup k with
  | some x => rfl
  | none => simp [List.lookup, beq_eq_false_iff_ne.mpr h]

/-- A block witnessing non-blankness is a dict block with non-blank text. -/
theorem blockTextBlank_of_nonBlank {b : JVal} (h : nonBlankBlockP b = true) :
    blockTextBlank b = false := by
  cases b with
  | obj bkvs =>
      cases htv : (bkvs.lookup "text").getD (.str "") with
      | str t =>
          simp only [nonBlankBlockP, htv] at h
          simp only [blockTextBlank, htv]
          simpa using h
      | null => simp only [nonBlankBlockP, htv] at h; cases h
      | bool bb => simp only [nonBlankBlockP, htv] at h; cases h
      | num n => simp only [nonBlankBlockP, htv] at h; cases h
      | arr xs => simp only [nonBlankBlockP, htv] at h; cases h
      | obj kk => simp only [nonBlankBlockP, htv] at h; cases h
  | null => cases h
  | bool bb => cases h
  | num n => cases h
  | str ss => cases h
  | arr xs => cases h

/-- The merge text of a list content whose first block has non-blank text
is non-blank. -/
theorem turnTextC_of_blockNonBlank {b : JVal} {rest : List JVal}
    (h : blockTextBlank b = false) :
    pyBlank (turnTextC (.arr (b :: rest))) = false := by
  cases b with
  | obj bkvs =>
      cases htv : (bkvs.lookup "text").getD (.str "") with
      | str t =>
          simp only [blockTextBlank, htv] at h
          simp only [turnTextC, htv]
          exact h
      | null => simp only [blockTextBlank, htv] at h; cases h
      | bool bb => simp only [blockTextBlank, htv] at h; cases h
      | num n => simp only [blockTextBlank, htv] at h; cases h
      | arr xs => simp only [blockTextBlank, htv] at h; cases h
      | obj kk => simp only [blockTextBlank, htv] at h; cases h
  | null => cases h
  | bool bb => cases h
  | num n => cases h
  | str ss => cases h
  | arr xs => cases h

/-- A retained (not dropped) assistant turn with simple content has a
non-blank first text. -/
theorem kept_nonblank {m : JVal} (hs : assistantSimple m = true)
    (hd : droppedAssistant m = false) : asstNonBlankFirst m = true := by
  unfold asstNonBlankFirst
  by_cases hrole : pyEq (roleD m) (.str "assistant") = true
  · unfold assistantSimple at hs
    unfold droppedAssistant at hd
    rw [hrole] at hs hd
    rw [Bool.true_and] at hd
    rw [Bool.not_true, Bool.false_or] at hs
    cases hc : contentD m with
    | str s =>
        rw [hc] at hd
        have hd' : pyBlank s = false := by simpa using hd
        simp [hd']
    | arr bs =>
        rw [hc] at hs hd
        cases bs with
        | nil => simp at hs
        | cons b brest =>
            cases brest with
            | cons b2 br2 => simp at hs
            | nil =>
                have hany : nonBlankBlockP b = true := by simpa using hd
                simp [blockTextBlank_of_nonBlank hany]
    | null => rw [hc] at hs; simp at hs
    | bool bb => rw [hc] at hs; simp at hs
    | num n => rw [hc] at hs; simp at hs
    | obj kk => rw [hc] at hs; simp at hs
  · simp [show pyEq (roleD m) (.str "assistant") = false from by simpa using hrole]

/-- For an assistant turn with a non-blank first text, the merge text is
non-blank. -/
theorem turnText_nonblank {m : JVal}
    (hrole : pyEq (roleD m) (.str "assistant") = true)
    (h : asstNonBlankFirst m = true) : pyBlank (turnText m) = false := by
  unfold asstNonBlankFirst at h
  rw [hrole, Bool.not_true, Bool.false_or] at h
  unfold turnText
  cases hc : contentD m with
  | str s =>
      rw [hc] at h
      have h' : pyBlank s = false := by simpa using h
      simpa [turnTextC] using h'
  | arr bs =>
      rw [hc] at h
      cases bs with
      | nil => simp at h
      | cons b brest =>
          have h' : blockTextBlank b = false := by simpa using h
          exact turnTextC_of_blockNonBlank h'
  | null => rw [hc] at h; simp at h
  | bool bb => rw [hc] at h; simp at h
  | num n => rw [hc] at h; simp at h
  | obj kk => rw [hc] at h; simp at h

theorem specMergeStep_nonblank {acc : List JVal} {m : JVal}
    (hm : (wfMsg m && asstNonBlankFirst m) = true)
    (hacc : acc.all (fun x => wfMsg x && asstNonBlankFirst x) = true) :
    (specMergeStep acc m).all (fun x => wfMsg x && asstNonBlankFirst x) = true := by
  rw [Bool.and_eq_true] at hm
  obtain ⟨hmw, hmb⟩ := hm
  cases acc with
  | nil => simp [specMergeStep, hmw, hmb]
  | cons prev accTl =>
      rw [List.all_cons, Bool.and_eq_true] at hacc
      obtain ⟨hprev, htl⟩ := hacc
      rw [Bool.and_eq_true] at hprev
      obtain ⟨hpw, hpb⟩ := hprev
      simp only [specMergeStep]
      by_cases heq : pyEq (roleD prev) (roleD m) = true
      · rw [if_pos heq]
        rw [List.all_cons, Bool.and_eq_true]
        refine ⟨?_, htl⟩
        cases prev with
        | obj pkvs =>
            rw [Bool.and_eq_true]
            refine ⟨wfMsg_objSet_content hpw (wfContent_textBlock _), ?_⟩
            have hroleEq : roleD (objSet (.obj pkvs) "content"
                (.arr [textBlock (turnText (.obj pkvs) ++ "\n" ++ turnText m)])) =
                roleD (.obj pkvs) := by
              unfold roleD
              rw [jlookup_objSet_ne _ _ _ _ (by decide)]
            unfold asstNonBlankFirst
            rw [hroleEq]
            by_cases hassist : pyEq (roleD (.obj pkvs)) (.str "assistant") = true
            · have hnb : pyBlank (turnText (.obj pkvs)) = false :=
                turnText_nonblank hassist hpb
              have hnb2 : pyBlank (turnText (.obj pkvs) ++ "\n" ++ turnText m) = false := by
                rw [show turnText (.obj pkvs) ++ "\n" ++ turnText m =
                      turnText (.obj pkvs) ++ ("\n" ++ turnText m) from by
                        rw [String.append_assoc]]
                exact pyBlank_append_left _ _ hnb
              simp only [Bool.or_eq_true]
              refine Or.inr ?_
              rw [show contentD (objSet (.obj pkvs) "content"
                    (.arr [textBlock (turnText (.obj pkvs) ++ "\n" ++ turnText m)])) =
                    .arr [textBlock (turnText (.obj pkvs) ++ "\n" ++ turnText m)] from by
                      unfold contentD
                      rw [jlookup_objSet_self]
                      rfl]
              simp only [blockTextBlank, textBlock]
              rw [show (([("type", JVal.str "text"),
                    ("text", JVal.str (turnText (.obj pkvs) ++ "\n" ++ turnText m)),
                    ("cache_control", ecc)].lookup "text" : Option JVal)) =
                    some (.str (turnText (.obj pkvs) ++ "\n" ++ turnText m)) from rfl]
              simp [hnb2]
            · simp [show pyEq (roleD (.obj pkvs)) (.str "assistant") = false from by
                simpa using hassist]
        | null => cases hpw
        | bool bb => cases hpw
        | num n => cases hpw
        | str ss => cases hpw
        | arr xs => cases hpw
      · rw [if_neg heq]
        simp [hmw, hmb, hpw, hpb, htl]

theorem specFold_nonblank (msgs : List JVal)
    (hP : msgs.all (fun m => wfMsg m && assistantSimple m) = true) :
    ∀ acc, acc.all (fun x => wfMsg x && asstNonBlankFirst x) = true →
    ((msgs.filter fun m => !droppedAssistant m).foldl specMergeStep acc).all
      (fun x => wfMsg x && asstNonBlankFirst x) = true := by
  induction msgs with
  | nil => intro acc hacc; exact hacc
  | cons m rest ih =>
      intro acc hacc
      rw [List.all_cons, Bool.and_eq_true] at hP
      obtain ⟨hm, hrest⟩ := hP
      rw [Bool.and_eq_true] at hm
      obtain ⟨hmw, hms⟩ := hm
      rcases hdp : droppedAssistant m with _ | _
      · rw [List.filter_cons_of_pos (by simp [hdp]), List.foldl_cons]
        exact ih hrest _ (specMergeStep_nonblank
          (by rw [Bool.and_eq_true]; exact ⟨hmw, kept_nonblank hms hdp⟩) hacc)
      · rw [List.filter_cons_of_neg (by simp [hdp])]
        exact ih hrest acc hacc

/-! ## Properties of the annotation pass -/

theorem annotateBlock_textBlank (b : JVal) :
    blockTextBlank (annotateBlock b) = blockTextBlank b := by
  cases b with
  | obj kvs =>
      simp only [annotateBlock]
      by_cases hcc : hasKeyKvs kvs "cache_control" = true
      · rw [if_pos hcc]
      · rw [if_neg hcc]
        simp only [blockTextBlank]
        rw [lookup_append_single_ne kvs ecc (by decide)]
  | null => rfl
  | bool bb => rfl
  | num n => rfl
  | str ss => rfl
  | arr xs => rfl

theorem all_blockTextBlank_annotate (bs : List JVal) :
    bs.all (blockTextBlank ∘ annotateBlock) = bs.all blockTextBlank := by
  induction bs with
  | nil => rfl
  | cons b bt ihb =>
      simp only [List.all_cons, Function.comp_apply, annotateBlock_textBlank, ihb]

theorem annotateMsg_blank {m m' : JVal} (h : annotateMsg m = .ok m') :
    blankAssistant m' = blankAssistant m := by
  unfold annotateMsg at h
  cases hc : pyGet m "content" (.str "") with
  | error e => simp only [hc] at h; cases h
  | ok c =>
      simp only [hc] at h
      obtain ⟨kvs, hobj, hval⟩ := pyGet_ok hc
      subst hobj
      have hrole : ∀ v, roleD (objSet (.obj kvs) "content" v) = roleD (.obj kvs) :=
        fun v => by unfold roleD; rw [jlookup_objSet_ne _ _ _ _ (by decide)]
      have hcontent : ∀ v, contentD (objSet (.obj kvs) "content" v) = v :=
        fun v => by unfold contentD; rw [jlookup_objSet_self]; rfl
      have hcd : contentD (.obj kvs) = c := by
        unfold contentD jlookup; rw [hval]
      cases c with
      | str s =>
          cases h
          unfold blankAssistant
          rw [hrole, hcontent, hcd]
          simp only [contentAllBlank, List.all_cons, List.all_nil, Bool.and_true]
          rw [show blockTextBlank (textBlock s) = pyBlank s from by
                simp only [blockTextBlank, textBlock]
                rfl]
      | arr bs =>
          cases h
          unfold blankAssistant
          rw [hrole, hcontent, hcd]
          simp only [contentAllBlank, List.all_map]
          rw [all_blockTextBlank_annotate]
      | null => cases h; rfl
      | bool bb => cases h; rfl
      | num n => cases h; rfl
      | obj kk => cases h; rfl

theorem annotateList_blank {l : List JVal} : ∀ {l' : List JVal},
    annotateList l = .ok l' →
    l.all (fun m => !blankAssistant m) = true →
    l'.all (fun m => !blankAssistant m) = true := by
  induction l with
  | nil => intro l' h _; cases h; rfl
  | cons m rest ih =>
      intro l' h hall
      rw [List.all_cons, Bool.and_eq_true] at hall
      unfold annotateList at h
      cases hm : annotateMsg m with
      | error e => simp only [hm] at h; cases h
      | ok m' =>
          simp only [hm] at h
          cases hr : annotateList rest with
          | error e => simp only [hr] at h; cases h
          | ok rest' =>
              simp only [hr] at h
              cases h
              rw [List.all_cons, Bool.and_eq_true]
              exact ⟨by rw [annotateMsg_blank hm]; exact hall.1, ih hr hall.2⟩

theorem msgBlocksCC_other {kvs : List (String × JVal)} {v : JVal}
    (hval : (kvs.lookup "content").getD (.str "") = v)
    (hv : notStrArr v = true) : msgBlocksCC (.obj kvs) = true := by
  simp only [msgBlocksCC, jlookup]
  cases hlk : kvs.lookup "content" with
  | none => rfl
  | some w =>
      rw [hlk, Option.getD_some] at hval
      subst hval
      cases w with
      | null => rfl
      | bool bb => rfl
      | num n => rfl
      | obj kk => rfl
      | str ss => cases hv
      | arr xs => cases hv

theorem annotateMsg_cc {m m' : JVal} (h : annotateMsg m = .ok m') :
    msgBlocksCC m' = true := by
  unfold annotateMsg at h
  cases hc : pyGet m "content" (.str "") with
  | error e => simp only [hc] at h; cases h
  | ok c =>
      simp only [hc] at h
      obtain ⟨kvs, hobj, hval⟩ := pyGet_ok hc
      subst hobj
      cases c with
      | str s =>
          cases h
          simp only [msgBlocksCC, jlookup_objSet_self]
          rfl
      | arr bs =>
          cases h
          simp only [msgBlocksCC, jlookup_objSet_self]
          rw [List.all_map, List.all_eq_true]
          intro b _
          cases b with
          | obj bkvs =>
              simp only [Function.comp_apply, annotateBlock]
              by_cases hcc : hasKeyKvs bkvs "cache_control" = true
              · rw [if_pos hcc]
                simp [isObjB, blockHasCC, hcc]
              · rw [if_neg hcc]
                simp only [isObjB, blockHasCC, Bool.or_eq_true]
                refine Or.inr ?_
                unfold hasKeyKvs
                rw [List.lookup_append]
                cases hk : bkvs.lookup "cache_control" with
                | some x => rfl
                | none => rfl
          | null => rfl
          | bool bb => rfl
          | num n => rfl
          | str ss => rfl
          | arr xs => rfl
      | null =>
          cases h
          exact msgBlocksCC_other hval rfl
      | bool bb =>
          cases h
          exact msgBlocksCC_other hval rfl
      | num n =>
          cases h
          exact msgBlocksCC_other hval rfl
      | obj kk =>
          cases h
          exact msgBlocksCC_other hval rfl

theorem annotateList_cc {l : List JVal} : ∀ {l' : List JVal},
    annotateList l = .ok l' → l'.all msgBlocksCC = true := by
  induction l with
  | nil => intro l' h; cases h; rfl
  | cons m rest ih =>
      intro l' h
      unfold annotateList at h
      cases hm : annotateMsg m with
      | error e => simp only [hm] at h; cases h
      | ok m' =>
          simp only [hm] at h
          cases hr : annotateList rest with
          | error e => simp only [hr] at h; cases h
          | ok rest' =>
              simp only [hr] at h
              cases h
              rw [List.all_cons, Bool.and_eq_true]
              exact ⟨annotateMsg_cc hm, ih hr⟩

theorem annotateList_total {l : List JVal} (h : l.all isObjB = true) :
    ∃ l', annotateList l = .ok l' := by
  induction l with
  | nil => exact ⟨[], rfl⟩
  | cons m rest ih =>
      rw [List.all_cons, Bool.and_eq_true] at h
      obtain ⟨hm, hrest⟩ := h
      obtain ⟨rest', hrest'⟩ := ih hrest
      cases m with
      | obj kvs =>
          have : ∃ m', annotateMsg (.obj kvs) = .ok m' := by
            unfold annotateMsg
            simp only [pyGet]
            cases hc : (kvs.lookup "content").getD (.str "") with
            | str s => exact ⟨_, rfl⟩
            | arr bs => exact ⟨_, rfl⟩
            | null => exact ⟨_, rfl⟩
            | bool bb => exact ⟨_, rfl⟩
            | num n => exact ⟨_, rfl⟩
            | obj kk => exact ⟨_, rfl⟩
          obtain ⟨m', hm'⟩ := this
          refine ⟨m' :: rest', ?_⟩
          unfold annotateList
          simp only [hm', hrest']
      | null => cases hm
      | bool bb => cases hm
      | num n => cases hm
      | str ss => cases hm
      | arr xs => cases hm

/-! ## Evaluation of the system-prompt extractor -/

theorem collectParts_wf {items : List JVal} (h : items.all wfSysItem = true) :
    collectParts items = .ok (collectP items) := by
  induction items with
  | nil => rfl
  | cons it rest ih =>
      rw [List.all_cons, Bool.and_eq_true] at h
      obtain ⟨hit, hrest⟩ := h
      cases it with
      | obj kvs =>
          cases htx : kvs.lookup "text" with
          | none =>
              simp only [collectParts, collectP, List.filterMap_cons, htx,
                Option.getD_none, show pyBlank "" = true from rfl, if_true,
                ih hrest]
          | some tv =>
              simp only [wfSysItem, htx] at hit
              cases tv with
              | str t =>
                  rcases hbl : pyBlank t with _ | _
                  · simp only [collectParts, collectP, List.filterMap_cons, htx,
                      Option.getD_some, hbl, Bool.false_eq_true, if_false, ih hrest]
                  · simp only [collectParts, collectP, List.filterMap_cons, htx,
                      Option.getD_some, hbl, if_true, ih hrest]
              | null => cases hit
              | bool bb => cases hit
              | num n => cases hit
              | arr xs => cases hit
              | obj kk => cases hit
      | null => simp only [collectParts, collectP, List.filterMap_cons, ih hrest]
      | bool bb => simp only [collectParts, collectP, List.filterMap_cons, ih hrest]
      | num n => simp only [collectParts, collectP, List.filterMap_cons, ih hrest]
      | str ss => simp only [collectParts, collectP, List.filterMap_cons, ih hrest]
      | arr xs => simp only [collectParts, collectP, List.filterMap_cons, ih hrest]

theorem get_user_system_text_wf {v : JVal} (h : wfSystem v = true) :
    ∃ s, get_user_system_text v = .ok s := by
  cases v with
  | str s =>
      simp only [get_user_system_text]
      by_cases hb : pyBlank s = true
      · rw [if_pos hb]; exact ⟨"", rfl⟩
      · rw [if_neg hb]; exact ⟨pyStrip s, rfl⟩
  | arr items =>
      simp only [get_user_system_text,
        collectParts_wf (show items.all wfSysItem = true by simpa [wfSystem] using h)]
      by_cases hp : (collectP items).isEmpty = true
      · simp only [hp, if_true]; exact ⟨"", rfl⟩
      · simp only [hp, Bool.false_eq_true, if_false]
        exact ⟨_, rfl⟩
  | null => exact ⟨"", rfl⟩
  | bool b => exact ⟨"", rfl⟩
  | num n => exact ⟨"", rfl⟩
  | obj kvs => exact ⟨"", rfl⟩

/-! ## Totality of the whole pipeline on well-formed bodies -/

theorem wfMsg_isObj {m : JVal} (h : wfMsg m = true) : isObjB m = true := by
  cases m with
  | obj kvs => rfl
  | null => cases h
  | bool b => cases h
  | num n => cases h
  | str s => cases h
  | arr xs => cases h

theorem forall₂_all_wf {ms ms' : List JVal}
    (hf : List.Forall₂ (fun m m' => m' = m ∨
      (wfMsg m' = true ∧ jlookup m' "role" = jlookup m "role" ∧
       pyEq (roleD m) (.str "user") = true)) ms ms')
    (h : ms.all wfMsg = true) : ms'.all wfMsg = true := by
  induction hf with
  | nil => rfl
  | @cons a b l1 l2 hab htail ih =>
      rw [List.all_cons, Bool.and_eq_true] at h
      rw [List.all_cons, Bool.and_eq_true]
      refine ⟨?_, ih h.2⟩
      rcases hab with rfl | ⟨hw, -, -⟩
      · exact h.1
      · exact hw

theorem injectPhase_total (us : String) {kvs1 : List (String × JVal)} {ms : List JVal}
    (hval : (kvs1.lookup "messages").getD (.arr []) = .arr ms)
    (hwf : ms.all wfMsg = true) :
    ∃ (kvs2 : List (String × JVal)) (ms' : List JVal),
      injectPhase us (.obj kvs1) = .ok (.obj kvs2) ∧
      (kvs2.lookup "messages").getD (.arr []) = .arr ms' ∧ ms'.all wfMsg = true := by
  by_cases hus : us ≠ ""
  · obtain ⟨msgs', hil, hf⟩ := injectLoop_wf (sysWrapper us) hwf
    refine ⟨setKvs kvs1 "messages" (.arr msgs'), msgs', ?_, ?_, forall₂_all_wf hf hwf⟩
    · unfold injectPhase
      rw [if_pos hus]
      simp only [show pyGet (.obj kvs1) "messages" (.arr []) = .ok (.arr ms) from by
            simp only [pyGet, hval], toIterList, hil]
      rfl
    · rw [lookup_setKvs_self]; rfl
  · refine ⟨kvs1, ms, ?_, hval, hwf⟩
    unfold injectPhase
    rw [if_neg hus]

theorem specFold_wf (msgs : List JVal) (h : msgs.all wfMsg = true) :
    ∀ acc, acc.all wfMsg = true →
    ((msgs.filter fun m => !droppedAssistant m).foldl specMergeStep acc).all
      wfMsg = true := by
  induction msgs with
  | nil => intro acc hacc; exact hacc
  | cons m rest ih =>
      intro acc hacc
      rw [List.all_cons, Bool.and_eq_true] at h
      obtain ⟨hm, hrest⟩ := h
      rcases hdp : droppedAssistant m with _ | _
      · rw [List.filter_cons_of_pos (by simp [hdp]), List.foldl_cons]
        exact ih hrest _ (specMergeStep_wf hm hacc)
      · rw [List.filter_cons_of_neg (by simp [hdp])]
        exact ih hrest acc hacc

theorem normalizePhase_total {kvs2 : List (String × JVal)} {ms : List JVal}
    (hval : (kvs2.lookup "messages").getD (.arr []) = .arr ms)
    (hwf : ms.all wfMsg = true) :
    ∃ out, normalizePhase (.obj kvs2) = .ok out := by
  have hcl := cleanLoop_eq_spec ms [] hwf rfl
  have hcleanwf : ((ms.filter fun m => !droppedAssistant m).foldl specMergeStep
      []).reverse.all wfMsg = true := by
    rw [List.all_reverse]
    exact specFold_wf ms hwf [] rfl
  have hcleanobj : ((ms.filter fun m => !droppedAssistant m).foldl specMergeStep
      []).reverse.all isObjB = true := by
    rw [List.all_eq_true] at hcleanwf ⊢
    intro x hx
    exact wfMsg_isObj (hcleanwf x hx)
  obtain ⟨ann, hann⟩ := annotateList_total hcleanobj
  unfold normalizePhase
  simp only [show pyGet (.obj kvs2) "messages" (.arr []) = .ok (.arr ms) from by
        simp only [pyGet, hval], toIterList, hcl, hann]
  exact ⟨_, rfl⟩

theorem transform_body_total {body : JVal} (h : wfBody body = true) :
    ∃ out, transform_body body = .ok out := by
  cases body with
  | obj bkvs =>
      unfold wfBody at h
      rw [Bool.and_eq_true] at h
      obtain ⟨hsys, hmsgs⟩ := h
      obtain ⟨us, hus⟩ := get_user_system_text_wf hsys
      have hlook1 : ((setKvs bkvs "system" FIXED_SYSTEM).lookup "messages" :
          Option JVal) = bkvs.lookup "messages" :=
        lookup_setKvs_ne _ _ _ _ (by decide)
      have hmsgs' : ∃ ms, ((setKvs bkvs "system" FIXED_SYSTEM).lookup
          "messages").getD (.arr []) = .arr ms ∧ ms.all wfMsg = true := by
        rw [hlook1]
        cases hlk : bkvs.lookup "messages" with
        | none => exact ⟨[], rfl, rfl⟩
        | some w =>
            rw [hlk] at hmsgs
            cases w with
            | arr ms => exact ⟨ms, rfl, hmsgs⟩
            | null => cases hmsgs
            | bool bb => cases hmsgs
            | num n => cases hmsgs
            | str ss => cases hmsgs
            | obj kk => cases hmsgs
      obtain ⟨ms, hval, hwf⟩ := hmsgs'
      obtain ⟨kvs2, ms', hinj, hval2, hwf2⟩ := injectPhase_total us hval hwf
      obtain ⟨out, hnorm⟩ := normalizePhase_total hval2 hwf2
      refine ⟨out, ?_⟩
      unfold transform_body
      simp only [show pyGet (.obj bkvs) "system" .null =
            .ok ((bkvs.lookup "system").getD .null) from rfl, hus,
        show objSet (.obj bkvs) "system" FIXED_SYSTEM =
          .obj (setKvs bkvs "system" FIXED_SYSTEM) from rfl, hinj, hnorm]
  | null => cases h
  | bool b => cases h
  | num n => cases h
  | str s => cases h
  | arr xs => cases h

/-! ## Last bridges for the no-blank-assistant statement -/

theorem not_blank_of_nonblankFirst {m : JVal} (h : asstNonBlankFirst m = true) :
    blankAssistant m = false := by
  unfold blankAssistant
  by_cases hrole : pyEq (roleD m) (.str "assistant") = true
  · unfold asstNonBlankFirst at h
    rw [hrole, Bool.not_true, Bool.false_or] at h
    rw [hrole, Bool.true_and]
    cases hc : contentD m with
    | str s =>
        rw [hc] at h
        unfold contentAllBlank
        simpa using h
    | arr bs =>
        rw [hc] at h
        cases bs with
        | nil => cases h
        | cons b brest =>
            have h' : blockTextBlank b = false := by simpa using h
            unfold contentAllBlank
            simp [h']
    | null => rw [hc] at h; cases h
    | bool bb => rw [hc] at h; cases h
    | num n => rw [hc] at h; cases h
    | obj kk => rw [hc] at h; cases h
  · rw [show pyEq (roleD m) (.str "assistant") = false from by simpa using hrole]
    rfl

theorem forall₂_all_wfsimple {ms ms' : List JVal}
    (hf : List.Forall₂ (fun m m' => m' = m ∨
      (wfMsg m' = true ∧ jlookup m' "role" = jlookup m "role" ∧
       pyEq (roleD m) (.str "user") = true)) ms ms')
    (h : ms.all (fun m => wfMsg m && assistantSimple m) = true) :
    ms'.all (fun m => wfMsg m && assistantSimple m) = true := by
  induction hf with
  | nil => rfl
  | @cons a b l1 l2 hab htail ih =>
      rw [List.all_cons, Bool.and_eq_true] at h
      rw [List.all_cons, Bool.and_eq_true]
      refine ⟨?_, ih h.2⟩
      rcases hab with rfl | ⟨hw, hrl, huser⟩
      · exact h.1
      · rw [Bool.and_eq_true]
        refine ⟨hw, ?_⟩
        have hb : roleD b = roleD a := by
          unfold roleD; rw [hrl]
        have ha : roleD a = .str "user" := pyEq_str_right huser
        unfold assistantSimple
        rw [hb, ha]
        rfl

/-! ## First-user-turn behaviour of the injection loop -/

theorem injectLoop_user_str {pfx s : String} {kvs : List (String × JVal)}
    {post : List JVal}
    (hrole : pyEq (roleD (.obj kvs)) (.str "user") = true)
    (hcont : (kvs.lookup "content").getD (.str "") = .str s) :
    injectLoop pfx (.obj kvs :: post) =
      .ok (objSet (.obj kvs) "content" (.str (pfx ++ s)) :: post) := by
  unfold injectLoop
  simp only [show pyGet (.obj kvs) "role" .null = .ok (roleD (.obj kvs)) from by
        simp only [pyGet, roleD, jlookup], hrole, if_true,
    show pyGet (.obj kvs) "content" (.str "") = .ok (.str s) from by
        simp only [pyGet, hcont]]

theorem injectLoop_user_blocks {pfx t : String} {kvs bkvs : List (String × JVal)}
    {bs post : List JVal}
    (hrole : pyEq (roleD (.obj kvs)) (.str "user") = true)
    (hcont : (kvs.lookup "content").getD (.str "") = .arr (.obj bkvs :: bs))
    (htext : (bkvs.lookup "text").getD (.str "") = .str t) :
    injectLoop pfx (.obj kvs :: post) =
      .ok (objSet (.obj kvs) "content"
            (.arr (objSet (.obj bkvs) "text" (.str (pfx ++ t)) :: bs)) :: post) := by
  unfold injectLoop
  simp only [show pyGet (.obj kvs) "role" .null = .ok (roleD (.obj kvs)) from by
        simp only [pyGet, roleD, jlookup], hrole, if_true,
    show pyGet (.obj kvs) "content" (.str "") = .ok (.arr (.obj bkvs :: bs)) from by
        simp only [pyGet, hcont],
    show pyGet (.obj bkvs) "text" (.str "") = .ok (.str t) from by
        simp only [pyGet, htext]]

theorem injectLoop_user_other {pfx : String} {kvs : List (String × JVal)}
    {post : List JVal}
    (hrole : pyEq (roleD (.obj kvs)) (.str "user") = true)
    (hcont : (kvs.lookup "content").getD (.str "") = .arr [] ∨
      notStrArr ((kvs.lookup "content").getD (.str "")) = true) :
    injectLoop pfx (.obj kvs :: post) = .ok (.obj kvs :: post) := by
  unfold injectLoop
  have hpg : pyGet (.obj kvs) "role" .null = .ok (roleD (.obj kvs)) := by
    simp only [pyGet, roleD, jlookup]
  have hpc : pyGet (.obj kvs) "content" (.str "") =
      .ok ((kvs.lookup "content").getD (.str "")) := rfl
  rcases hcont with hc | hc
  · simp only [hpg, hrole, if_true, hpc, hc]
  · simp only [hpg, hrole, if_true, hpc]
    cases hv : (kvs.lookup "content").getD (.str "") with
    | null => rfl
    | bool bb => rfl
    | num n => rfl
    | obj kk => rfl
    | str ss => rw [hv] at hc; cases hc
    | arr xs => rw [hv] at hc; cases hc

theorem injectLoop_append_not_user {pfx : String} {pre rest rest' : List JVal}
    (hpre : pre.all (fun x => isObjB x && !pyEq (roleD x) (.str "user")) = true)
    (h : injectLoop pfx rest = .ok rest') :
    injectLoop pfx (pre ++ rest) = .ok (pre ++ rest') := by
  induction pre with
  | nil => simpa using h
  | cons m pr ih =>
      rw [List.all_cons, Bool.and_eq_true] at hpre
      obtain ⟨hm, hpre'⟩ := hpre
      rw [Bool.and_eq_true] at hm
      obtain ⟨hobj, hnu⟩ := hm
      cases m with
      | obj kvs =>
          rw [List.cons_append, List.cons_append]
          unfold injectLoop
          simp only [show pyGet (.obj kvs) "role" .null = .ok (roleD (.obj kvs)) from by
              simp only [pyGet, roleD, jlookup],
            show pyEq (roleD (.obj kvs)) (.str "user") = false from by simpa using hnu,
            Bool.false_eq_true, if_false, ih hpre']
      | null => cases hobj
      | bool b => cases hobj
      | num n => cases hobj
      | str ss => cases hobj
      | arr xs => cases hobj

/-! ## Round-robin facts for the credential rotator -/

theorem cycleStateAfter_nil (k : Nat) : cycleStateAfter [] k = none := by
  induction k with
  | zero => rfl
  | succ k ih => simp [cycleStateAfter, ih, get_next_key]

theorem cycleStateAfter_cons {keys : List JVal} (hk : keys ≠ []) (k : Nat) :
    cycleStateAfter keys k = some (keys, k) := by
  induction k with
  | zero =>
      simp only [cycleStateAfter, keyCycleInit]
      rw [if_neg (by simpa [List.isEmpty_iff] using hk)]
  | succ k ih => simp [cycleStateAfter, ih, get_next_key]

theorem callAt_eq {keys : List JVal} (hk : keys ≠ []) (k : Nat) :
    callAt keys k = keys.getD (k % keys.length) .null := by
  unfold callAt
  rw [cycleStateAfter_cons hk k]
  rfl

/-! # Claim theorems -/

/-- C1 (counterexample): the inbound list `c1Body` — two assistant turns
whose multi-block contents have blank first blocks — transforms
successfully into a payload containing an assistant turn whose text
content is entirely blank (the merge keeps only the blank first-block
texts, producing a turn with text a blank `" \n "`), refuting the claim
that no outbound assistant turn has entirely blank text content. -/
theorem c1_counterexample :
    (transform_body c1Body).isOk = true ∧
    (okMsgs (transform_body c1Body)).any blankAssistant = true := ⟨rfl, rfl⟩

/-- C1 (amended): for every inbound body whose transformation succeeds,
the outbound messages contain no two adjacent turns sharing a role; and
when additionally every inbound turn is well-formed with assistant
contents a plain string or a single block, no outbound assistant turn has
entirely blank text content. -/
theorem c1_theorem :
    (∀ body out, transform_body body = .ok out →
       List.Chain' RoleR (msgsOf out)) ∧
    (∀ body out, transform_body body = .ok out →
       msgsAllP (fun m => wfMsg m && assistantSimple m) body = true →
       (msgsOf out).all (fun m => !blankAssistant m) = true) := by
  constructor
  · intro body out h
    obtain ⟨msgs, cleaned, annotated, hcl, han, hout, -⟩ := transform_msgs_rel h
    rw [hout]
    exact chain_of_forall₂ (annotateList_roles han)
      (cleanLoop_chain msgs [] cleaned hcl List.chain'_nil)
  · intro body out h hP
    obtain ⟨msgs, cleaned, annotated, hcl, han, hout, hrel⟩ := transform_msgs_rel h
    rw [hout]
    have hmsgsP : msgs.all (fun m => wfMsg m && assistantSimple m) = true := by
      rcases hrel with rfl | ⟨ms, hlb, hmm⟩
      · rfl
      · have hmsP : ms.all (fun m => wfMsg m && assistantSimple m) = true := by
          unfold msgsAllP at hP
          rw [hlb] at hP
          exact hP
        rcases hmm with rfl | ⟨pfx, hil⟩
        · exact hmsP
        · have hwf : ms.all wfMsg = true := by
            rw [List.all_eq_true] at hmsP ⊢
            intro x hx
            have hx2 := hmsP x hx
            rw [Bool.and_eq_true] at hx2
            exact hx2.1
          obtain ⟨msgs', hil', hf⟩ := injectLoop_wf pfx hwf
          have he : msgs = msgs' := Except.ok.inj (hil.symm.trans hil')
          subst he
          exact forall₂_all_wfsimple hf hmsP
    have hwfall : msgs.all wfMsg = true := by
      rw [List.all_eq_true] at hmsgsP ⊢
      intro x hx
      have hx3 := hmsgsP x hx
      rw [Bool.and_eq_true] at hx3
      exact hx3.1
    have hspec := cleanLoop_eq_spec msgs [] hwfall rfl
    have hcleaneq : cleaned =
        ((msgs.filter fun m => !droppedAssistant m).foldl specMergeStep []).reverse :=
      Except.ok.inj (hcl.symm.trans hspec)
    have hnb := specFold_nonblank msgs hmsgsP [] rfl
    have hcleanednb : cleaned.all (fun m => !blankAssistant m) = true := by
      rw [hcleaneq, List.all_reverse, List.all_eq_true]
      rw [List.all_eq_true] at hnb
      intro x hx
      have hx2 := hnb x hx
      rw [Bool.and_eq_true] at hx2
      simp [not_blank_of_nonblankFirst hx2.2]
    exact annotateList_blank han hcleanednb

/-- C1 (witness): the amended theorem applied to a concrete two-turn
well-formed body. -/
theorem c1_witness :
    List.Chain' RoleR (msgsOf c1WitOut) ∧
    (msgsOf c1WitOut).all (fun m => !blankAssistant m) = true :=
  ⟨c1_theorem.1 c1WitBody c1WitOut rfl,
   c1_theorem.2 c1WitBody c1WitOut rfl rfl⟩

/-- C2 (counterexample): `c2Body` has non-empty caller system text and
two user turns, yet the transformation succeeds with the wrapper injected
into no turn at all: the first user turn's content is an empty block
list, so the loop breaks without injecting. -/
theorem c2_counterexample :
    get_user_system_text (.str "S") = .ok "S" ∧
    (transform_body c2Body).isOk = true ∧
    (okMsgs (transform_body c2Body)).any msgHasWrapper = false := ⟨rfl, rfl, rfl⟩

/-- C2 (amended): turns before the first user turn pass through the
injection loop untouched, and a list with no user turn passes through
whole; when the first user turn's content is a string, the wrapper is
prepended to it; when it is a non-empty block list, the wrapper is
prepended to the first block's text; when it has any other shape (an
empty block list or a non-string, non-list value), no turn is modified at
all — in each case exactly the first user turn (or none) changes. -/
theorem c2_theorem :
    (∀ (S : String) (msgs : List JVal),
       msgs.all (fun m => isObjB m && !pyEq (roleD m) (.str "user")) = true →
       injectLoop (sysWrapper S) msgs = .ok msgs) ∧
    (∀ (S : String) (pre post : List JVal) (s : String)
       (kvs : List (String × JVal)),
       pre.all (fun x => isObjB x && !pyEq (roleD x) (.str "user")) = true →
       pyEq (roleD (.obj kvs)) (.str "user") = true →
       (kvs.lookup "content").getD (.str "") = .str s →
       injectLoop (sysWrapper S) (pre ++ .obj kvs :: post) =
         .ok (pre ++ objSet (.obj kvs) "content"
               (.str (sysWrapper S ++ s)) :: post)) ∧
    (∀ (S : String) (pre post bs : List JVal) (t : String)
       (kvs bkvs : List (String × JVal)),
       pre.all (fun x => isObjB x && !pyEq (roleD x) (.str "user")) = true →
       pyEq (roleD (.obj kvs)) (.str "user") = true →
       (kvs.lookup "content").getD (.str "") = .arr (.obj bkvs :: bs) →
       (bkvs.lookup "text").getD (.str "") = .str t →
       injectLoop (sysWrapper S) (pre ++ .obj kvs :: post) =
         .ok (pre ++ objSet (.obj kvs) "content"
               (.arr (objSet (.obj bkvs) "text" (.str (sysWrapper S ++ t)) :: bs))
               :: post)) ∧
    (∀ (S : String) (pre post : List JVal) (kvs : List (String × JVal)),
       pre.all (fun x => isObjB x && !pyEq (roleD x) (.str "user")) = true →
       pyEq (roleD (.obj kvs)) (.str "user") = true →
       ((kvs.lookup "content").getD (.str "") = .arr [] ∨
         notStrArr ((kvs.lookup "content").getD (.str "")) = true) →
       injectLoop (sysWrapper S) (pre ++ .obj kvs :: post) =
         .ok (pre ++ .obj kvs :: post)) := by
  refine ⟨?_, ?_, ?_, ?_⟩
  · intro S msgs h
    exact injectLoop_not_user h
  · intro S pre post s kvs hpre hrole hcont
    exact injectLoop_append_not_user hpre (injectLoop_user_str hrole hcont)
  · intro S pre post bs t kvs bkvs hpre hrole hcont htext
    exact injectLoop_append_not_user hpre (injectLoop_user_blocks hrole hcont htext)
  · intro S pre post kvs hpre hrole hcont
    exact injectLoop_append_not_user hpre (injectLoop_user_other hrole hcont)

/-- C2 (witness): the string-content case applied to a concrete list with
a non-user turn before the first user turn and a user turn after it. -/
theorem c2_witness :
    injectLoop (sysWrapper "S")
        ([mkMsg "assistant" (.str "x")] ++
          mkMsg "user" (.str "hi") :: [mkMsg "user" (.str "bye")]) =
      .ok ([mkMsg "assistant" (.str "x")] ++
          objSet (mkMsg "user" (.str "hi")) "content"
            (.str (sysWrapper "S" ++ "hi")) :: [mkMsg "user" (.str "bye")]) :=
  c2_theorem.2.1 "S" [mkMsg "assistant" (.str "x")] [mkMsg "user" (.str "bye")]
    "hi" [("role", .str "user"), ("content", .str "hi")] rfl rfl rfl

/-- C3 (counterexample): `c3Body` holds a turn whose content list has a
bare string element; the transformation succeeds and that block carries
no `cache_control` annotation, refuting the claim that every content
block of every outbound turn does. -/
theorem c3_counterexample :
    (transform_body c3Body).isOk = true ∧
    someBlockNoCC (okMsgs (transform_body c3Body)) = true := ⟨rfl, rfl⟩

/-- C3 (amended): in every successful transformation, every dict content
block of every outbound turn carries `cache_control` and no plain-string
content remains (it is lifted into a one-element block list); a block
already carrying `cache_control` is left unchanged; string content lifts
to a single annotated text block.  Non-dict blocks are left bare. -/
theorem c3_theorem :
    (∀ body out, transform_body body = .ok out →
       (msgsOf out).all msgBlocksCC = true) ∧
    (∀ kvs, hasKeyKvs kvs "cache_control" = true →
       annotateBlock (.obj kvs) = .obj kvs) ∧
    (∀ (kvs : List (String × JVal)) (s : String),
       (kvs.lookup "content").getD (.str "") = .str s →
       annotateMsg (.obj kvs) =
         .ok (objSet (.obj kvs) "content" (.arr [textBlock s]))) := by
  refine ⟨?_, ?_, ?_⟩
  · intro body out h
    obtain ⟨kvs2, msgs, cleaned, annotated, hit, hcl, han, hout⟩ :=
      transform_body_ok_decomp h
    rw [hout]
    exact annotateList_cc han
  · intro kvs h
    simp only [annotateBlock]
    rw [if_pos h]
  · intro kvs s h
    unfold annotateMsg
    simp only [pyGet, h]

/-- C3 (witness): the amended parts applied to a concrete annotated
block, a concrete string-content turn, and a concrete transformed body. -/
theorem c3_witness :
    annotateBlock (.obj [("cache_control", .obj [("type", .str "x")])]) =
      .obj [("cache_control", .obj [("type", .str "x")])] ∧
    annotateMsg (.obj [("content", .str "hi")]) =
      .ok (objSet (.obj [("content", .str "hi")]) "content"
            (.arr [textBlock "hi"])) ∧
    (msgsOf c1WitOut).all msgBlocksCC = true :=
  ⟨c3_theorem.2.1 _ rfl, c3_theorem.2.2 _ "hi" rfl,
   c3_theorem.1 c1WitBody c1WitOut rfl⟩

/-- C4 (counterexample): a body whose second turn lacks a `role` key
makes `transform_body` raise `KeyError` (line 102, `msg["role"]`),
refuting the claim that the normalization steps are total for every body
that parses as a JSON object. -/
theorem c4_counterexample : transform_body c4Body = .error "KeyError" := rfl

/-- C4 (amended): `transform_body` returns a result (raises nothing) for
every body that is a JSON object whose `system` value is digestible and
whose `messages`, when present, is a list of turns each being a dict with
a `role` key and content that is a string or a non-empty list of dict
blocks with string (or absent) `text`. -/
theorem c4_theorem : ∀ body, wfBody body = true →
    ∃ out, transform_body body = .ok out :=
  fun _ h => transform_body_total h

/-- C4 (witness): totality applied to a concrete well-formed body. -/
theorem c4_witness : wfBody c1WitBody = true ∧
    ∃ out, transform_body c1WitBody = .ok out :=
  ⟨rfl, c4_theorem c1WitBody rfl⟩

/-- C5: for every pool, the first `N` sequential calls to `get_next_key`
return exactly the pool elements in pool order, call `N+1` returns the
same credential as call 1, and for an empty pool every call returns the
empty string instead of raising. -/
theorem c5_theorem : ∀ keys : List JVal,
    ((List.range keys.length).map (callAt keys) = keys) ∧
    callAt keys keys.length = callAt keys 0 ∧
    (keys = [] → ∀ k, callAt keys k = .str "") := by
  intro keys
  by_cases hk : keys = []
  · subst hk
    refine ⟨rfl, rfl, fun _ k => ?_⟩
    unfold callAt
    rw [cycleStateAfter_nil]
    rfl
  · refine ⟨?_, ?_, fun he => absurd he hk⟩
    · apply List.ext_getElem
      · simp
      · intro i h1 h2
        rw [List.getElem_map, List.getElem_range, callAt_eq hk,
          Nat.mod_eq_of_lt h2]
        exact List.getD_eq_getElem _ _ h2
    · rw [callAt_eq hk, callAt_eq hk, Nat.mod_self, Nat.zero_mod]

/-- C5 (witness): the rotator theorem applied to a two-element pool and
to the empty pool. -/
theorem c5_witness :
    ((List.range ([JVal.str "k1", JVal.str "k2"] : List JVal).length).map
        (callAt [JVal.str "k1", JVal.str "k2"]) =
      [JVal.str "k1", JVal.str "k2"]) ∧
    callAt [JVal.str "k1", JVal.str "k2"]
        ([JVal.str "k1", JVal.str "k2"] : List JVal).length =
      callAt [JVal.str "k1", JVal.str "k2"] 0 ∧
    callAt ([] : List JVal) 5 = .str "" :=
  ⟨(c5_theorem [.str "k1", .str "k2"]).1,
   (c5_theorem [.str "k1", .str "k2"]).2.1,
   (c5_theorem []).2.2 rfl 5⟩

/-- C6: on any upstream non-success status the streaming branch drains
the whole error body and delivers it as a single terminal chunk inside a
200 envelope (`StreamingResponse` default status). -/
theorem c6_theorem : ∀ (status : Nat) (chunks : List String),
    ¬(200 ≤ status ∧ status < 300) →
    streamingResponseOf status chunks = (200, [String.join chunks]) := by
  intro status chunks h
  have hne : (status == 200) = false :=
    beq_eq_false_iff_ne.mpr (fun he => h (by subst he; exact ⟨le_refl 200, by norm_num⟩))
  simp [streamingResponseOf, hne]

/-- C6 (witness): a 429 with body `\x7b"error":"rate limited"\x7d` split
over two upstream chunks is delivered as one chunk equal to the whole
body, inside the 200 envelope. -/
theorem c6_witness :
    ¬(200 ≤ 429 ∧ 429 < 300) ∧
    streamingResponseOf 429 ["\x7b\"error\":", "\"rate limited\"\x7d"] =
      (200, [String.join ["\x7b\"error\":", "\"rate limited\"\x7d"]]) ∧
    String.join ["\x7b\"error\":", "\"rate limited\"\x7d"] =
      "\x7b\"error\":\"rate limited\"\x7d" :=
  ⟨by decide, c6_theorem 429 _ (by decide), rfl⟩

/-- C7 (counterexample): reloading a parseable snapshot whose `api_keys`
is the number 5 returns a structured failure, yet `ANYROUTER_URL` has
already been overwritten with the new value — the previously active
configuration does not remain unchanged, refuting the all-or-nothing
claim. -/
theorem c7_counterexample :
    (reload_config (.ok c7Snapshot) c7State0).2 =
      .error "TypeError: not iterable" ∧
    (reload_config (.ok c7Snapshot) c7State0).1.ANYROUTER_URL =
      .str "http://new" ∧
    c7State0.ANYROUTER_URL = .str "http://old" ∧
    (JVal.str "http://new" ≠ JVal.str "http://old") :=
  ⟨rfl, rfl, rfl, fun h => absurd (JVal.str.inj h) (by decide)⟩

/-- C7 (amended): when reading or parsing the snapshot fails, the state
is returned unchanged with a structured failure; when the snapshot is an
object whose `api_keys` is a list, the reload replaces every cached value,
rebuilds the cycle over the new pool with the cursor at the start (or
`None` for an empty pool), and reports the new credential count.  A
snapshot that parses but is not an object, or whose `api_keys` is a
truthy non-iterable, fails after some globals were already overwritten. -/
theorem c7_theorem :
    (∀ (e : String) (s : ProxyState), reload_config (.error e) s = (s, .error e)) ∧
    (∀ (s : ProxyState) (kvs : List (String × JVal)) (keys : List JVal),
       (kvs.lookup "api_keys").getD (.arr []) = .arr keys →
       reload_config (.ok (.obj kvs)) s =
         ({ config := .obj kvs,
            DEBUG := (kvs.lookup "debug").getD (.bool false),
            ANYROUTER_URL := (kvs.lookup "anyrouter_url").getD (.str ""),
            FIXED_UA := (kvs.lookup "user_agent").getD (.str ""),
            API_KEYS := .arr keys,
            key_cycle := if keys.isEmpty then none else some (keys, 0) },
          .ok keys.length)) := by
  constructor
  · intro e s
    rfl
  · intro s kvs keys hak
    unfold reload_config
    simp only [hak]
    cases keys with
    | nil => rfl
    | cons k kt => rfl

/-- C7 (witness): both amended cases at concrete inputs — a failed load
leaves the state untouched; a one-key snapshot installs the new pool with
the cursor at the start and reports count 1. -/
theorem c7_witness :
    reload_config (.error "unreadable") c7State0 = (c7State0, .error "unreadable") ∧
    reload_config (.ok (.obj [("api_keys", .arr [.str "k"])])) c7State0 =
      ({ config := .obj [("api_keys", .arr [.str "k"])],
         DEBUG := .bool false, ANYROUTER_URL := .str "",
         FIXED_UA := .str "", API_KEYS := .arr [.str "k"],
         key_cycle := some ([.str "k"], 0) },
       .ok 1) :=
  ⟨c7_theorem.1 "unreadable" c7State0,
   c7_theorem.2 c7State0 [("api_keys", .arr [.str "k"])] [.str "k"] rfl⟩

/-- C8: on well-formed turns the clean-and-merge loop computes exactly
the spec's staging — drop every blank assistant turn, then merge each
turn into the previous retained turn when roles coincide, concatenating
their texts with a newline into a single annotated block (cascading) —
and the spec's scenario `[user:"a", assistant:"", assistant:"b",
assistant:"c"]` transforms with the assistant turns becoming one turn
with text `"b\nc"`. -/
theorem c8_theorem :
    (∀ msgs, msgs.all wfMsg = true → cleanLoop [] msgs = .ok (specClean msgs)) ∧
    transform_body c8Body = .ok c8Out :=
  ⟨fun msgs h => cleanLoop_eq_spec msgs [] h rfl, rfl⟩

/-- C8 (witness): the staging equivalence applied to the scenario's
message list. -/
theorem c8_witness :
    ([mkMsg "user" (.str "a"), mkMsg "assistant" (.str ""),
      mkMsg "assistant" (.str "b"), mkMsg "assistant" (.str "c")].all wfMsg
      = true) ∧
    cleanLoop [] [mkMsg "user" (.str "a"), mkMsg "assistant" (.str ""),
        mkMsg "assistant" (.str "b"), mkMsg "assistant" (.str "c")] =
      .ok (specClean [mkMsg "user" (.str "a"), mkMsg "assistant" (.str ""),
        mkMsg "assistant" (.str "b"), mkMsg "assistant" (.str "c")]) :=
  ⟨rfl, c8_theorem.1 _ rfl⟩

/-- C9 (counterexample): a list item whose `text` field is the number 5
makes `get_user_system_text` raise `AttributeError` (`.strip()` on a
non-string), refuting the claim that items lacking usable text are
skipped silently rather than causing an error. -/
theorem c9_counterexample :
    get_user_system_text (.arr [.obj [("text", .num 5)]]) =
      .error "AttributeError: strip" := rfl

/-- C9 (amended): absent input yields empty text; blank string input
yields empty text; non-blank string input yields the trimmed string; list
input whose dict items carry string (or absent) `text` yields the trimmed
non-blank texts joined by a blank line, with non-dict items, items
without `text`, and blank-text items skipped silently; any other shape
yields empty text.  (An item whose `text` is present but not a string
raises instead of being skipped.) -/
theorem c9_theorem :
    get_user_system_text .null = .ok "" ∧
    (∀ s, pyBlank s = true → get_user_system_text (.str s) = .ok "") ∧
    (∀ s, pyBlank s = false → get_user_system_text (.str s) = .ok (pyStrip s)) ∧
    (∀ items, items.all wfSysItem = true →
       get_user_system_text (.arr items) =
         .ok ("\n\n".intercalate (collectP items))) ∧
    (∀ v, notStrArr v = true → get_user_system_text v = .ok "") := by
  refine ⟨rfl, ?_, ?_, ?_, ?_⟩
  · intro s h
    simp only [get_user_system_text, h, if_true]
  · intro s h
    simp only [get_user_system_text, h, Bool.false_eq_true, if_false]
  · intro items h
    simp only [get_user_system_text, collectParts_wf h]
    by_cases hp : (collectP items).isEmpty = true
    · rw [if_pos hp]
      rw [List.isEmpty_iff] at hp
      rw [hp]
      rfl
    · rw [if_neg hp]
  · intro v hv
    cases v with
    | null => rfl
    | bool b => rfl
    | num n => rfl
    | obj kvs => rfl
    | str s => cases hv
    | arr xs => cases hv

/-- C9 (witness): the amended cases at concrete inputs — a blank string,
a padded string, a mixed list (usable, non-dict, no-text and usable
items), and a number. -/
theorem c9_witness :
    get_user_system_text (.str "   ") = .ok "" ∧
    get_user_system_text (.str "  Be terse.  ") = .ok (pyStrip "  Be terse.  ") ∧
    get_user_system_text (.arr [.obj [("text", .str " a ")], .str "skip",
        .obj [("k", .str "b")], .obj [("text", .str "c")]]) =
      .ok ("\n\n".intercalate (collectP [.obj [("text", .str " a ")], .str "skip",
        .obj [("k", .str "b")], .obj [("text", .str "c")]])) ∧
    get_user_system_text (.num 7) = .ok "" :=
  ⟨c9_theorem.2.1 "   " rfl, c9_theorem.2.2.1 "  Be terse.  " rfl,
   c9_theorem.2.2.2.1 _ rfl, c9_theorem.2.2.2.2 (.num 7) rfl⟩

/-- C10 counterexample: the inbound body `c10TextBody` has `stream`
explicitly `false` and its user turn's TEXT CONTENT literally contains
the substring `"stream": true` (and `"stream":true`), yet after
transformation the byte scan on the serialized outbound body reports
`false` — the serializer escapes the quotes inside string values, so
the needle never matches from within text — and the relay takes the
buffered path, not the streaming path. -/
theorem c10_counterexample :
    transform_body c10TextBody = .ok c10TextOut ∧
    jlookup c10TextOut "stream" = some (.bool false) ∧
    strContains "note \"stream\": true and \"stream\":true here"
      "\"stream\": true" = true ∧
    strContains "note \"stream\": true and \"stream\":true here"
      "\"stream\":true" = true ∧
    is_stream (jsonDumps c10TextOut) = false :=
  ⟨rfl, rfl, rfl, rfl, rfl⟩

/-- C10 (amended): the streamed-vs-buffered decision is the byte-level
scan of the serialized body for `"stream": true` / `"stream":true`
(definitionally, not a structural check), and it can misfire — the body
`c10Body`, whose `stream` field is `false` but which carries a nested
object field serializing to `"stream": true`, transforms to an outbound
payload whose `stream` field is still `false` while the byte scan
reports `true`, so the relay takes the streaming path.  The misfire
cannot arise from a turn's text content: the serializer escapes quotes
inside string values, so `c10TextBody`, whose turn text literally
contains the substring, serializes to a body on which the scan reports
`false`. -/
theorem c10_theorem :
    (∀ s, is_stream s =
      (strContains s "\"stream\": true" || strContains s "\"stream\":true")) ∧
    transform_body c10Body = .ok c10Out ∧
    jlookup c10Out "stream" = some (.bool false) ∧
    is_stream (jsonDumps c10Out) = true ∧
    transform_body c10TextBody = .ok c10TextOut ∧
    is_stream (jsonDumps c10TextOut) = false :=
  ⟨fun _ => rfl, rfl, rfl, rfl, rfl, rfl⟩

end AnyrouterProxy
